import Mathlib

/-
Verification development for a two-player chess session engine.

The model below is a shallow embedding of the TypeScript sources:
`ChessRules` (move legality, attack maps, terminal detection) and the
server's session handlers (`createGame`, `updateGameStatus`, `handleMove`,
`handleCastling`, `updateCastlingRights`).

Modelling conventions, noted where they matter:
- Board coordinates are `Int` (JS numbers); a read outside the 8x8 grid
  yields `none` (JS `undefined`/missing, which every call site treats as
  falsy or as an empty square).
- `setSq` rebuilds the 8x8 grid; a write outside the grid leaves every
  readable square unchanged, matching the fact that JS out-of-range array
  writes are invisible to the 0..7 scans all readers use.
- `isPathClear` is only ever called on rook- or bishop-aligned pairs by the
  source; on that domain the step-walk below visits exactly the squares the
  TS loop visits.
-/

set_option maxHeartbeats 1000000

namespace Chess

inductive Color where
  | white
  | black
deriving DecidableEq, Repr

def oppColor : Color → Color
  | .white => .black
  | .black => .white

inductive PieceType where
  | pawn
  | rook
  | knight
  | bishop
  | queen
  | king
deriving DecidableEq, Repr

structure ChessPiece where
  type : PieceType
  color : Color
  id : String
  hasMoved : Bool
  row : Int
  col : Int
deriving DecidableEq, Repr

abbrev Board := List (List (Option ChessPiece))

abbrev inB (r c : Int) : Prop := 0 ≤ r ∧ r < 8 ∧ 0 ≤ c ∧ c < 8

def getSq (b : Board) (r c : Int) : Option ChessPiece :=
  if inB r c then (b.getD r.toNat []).getD c.toNat none else none

def setSq (b : Board) (r c : Int) (v : Option ChessPiece) : Board :=
  (List.range 8).map fun (i : Nat) => (List.range 8).map fun (j : Nat) =>
    if (i : Int) = r ∧ (j : Int) = c then v else getSq b (i : Int) (j : Int)

/-- All board cells in the row-major order every TS scan loop uses. -/
def allCells : List (Int × Int) :=
  (List.range 8).flatMap fun (r : Nat) => (List.range 8).map fun (c : Nat) => ((r : Int), (c : Int))

/-- Does `(toRow, toCol)` hold a piece of the mover's own color? (the
`targetPiece && targetPiece.color === piece.color` test). -/
def friendlyAt (b : Board) (p : ChessPiece) (toRow toCol : Int) : Bool :=
  match getSq b toRow toCol with
  | some t => if t.color = p.color then true else false
  | none => false

def pieceDirection (c : Color) : Int :=
  match c with
  | .white => -1
  | .black => 1

def stepDir (x y : Int) : Int := if y > x then 1 else if y < x then -1 else 0

def isPathClear (b : Board) (fromRow fromCol toRow toCol : Int) : Bool :=
  let rs := stepDir fromRow toRow
  let cs := stepDir fromCol toCol
  let n := max (toRow - fromRow).natAbs (toCol - fromCol).natAbs
  (List.range (n - 1)).all fun (i : Nat) =>
    (getSq b (fromRow + rs * ((i : Int) + 1)) (fromCol + cs * ((i : Int) + 1))).isNone

/- Attack-map construction (`getAttackedSquares` / `markXAttacks`). The TS
code marks squares in a boolean grid; here `attacksCell` decides whether the
marking pass for one piece would mark the square `(r, c)`. -/

def rayGo (b : Board) (dr dc : Int) : Nat → Int → Int → List (Int × Int)
  | 0, _, _ => []
  | fuel + 1, r, c =>
    if inB r c then
      (r, c) :: (if (getSq b r c).isSome then [] else rayGo b dr dc fuel (r + dr) (c + dc))
    else []

/-- The squares one sliding ray marks: walk from the piece in direction
`(dr, dc)`, marking every square up to and including the first occupied one,
stopping at the board edge. -/
def rayCells (b : Board) (r c dr dc : Int) : List (Int × Int) :=
  rayGo b dr dc 8 (r + dr) (c + dc)

def rookDirs : List (Int × Int) := [(-1, 0), (1, 0), (0, -1), (0, 1)]

def bishopDirs : List (Int × Int) := [(-1, -1), (-1, 1), (1, -1), (1, 1)]

def slideMarks (b : Board) (dirs : List (Int × Int)) (pr pc r c : Int) : Bool :=
  if ∃ d ∈ dirs, (r, c) ∈ rayCells b pr pc d.1 d.2 then true else false

def knightOffsets : List (Int × Int) :=
  [(-2, -1), (-2, 1), (-1, -2), (-1, 2), (1, -2), (1, 2), (2, -1), (2, 1)]

def kingAdjOffsets : List (Int × Int) :=
  [(-1, -1), (-1, 0), (-1, 1), (0, -1), (0, 1), (1, -1), (1, 0), (1, 1)]

def pawnMarks (p : ChessPiece) (pr pc r c : Int) : Bool :=
  let d := pieceDirection p.color
  if (0 < pc ∧ inB (pr + d) (pc - 1) ∧ r = pr + d ∧ c = pc - 1)
      ∨ (pc < 7 ∧ inB (pr + d) (pc + 1) ∧ r = pr + d ∧ c = pc + 1) then true else false

def knightMarks (pr pc r c : Int) : Bool :=
  if (r, c) ∈ knightOffsets.map (fun o => (pr + o.1, pc + o.2)) ∧ inB r c then true else false

def kingMarks (pr pc r c : Int) : Bool :=
  if (r, c) ∈ kingAdjOffsets.map (fun o => (pr + o.1, pc + o.2)) ∧ inB r c then true else false

def attacksCell (b : Board) (p : ChessPiece) (pr pc r c : Int) : Bool :=
  match p.type with
  | .pawn => pawnMarks p pr pc r c
  | .rook => slideMarks b rookDirs pr pc r c
  | .knight => knightMarks pr pc r c
  | .bishop => slideMarks b bishopDirs pr pc r c
  | .queen => slideMarks b rookDirs pr pc r c || slideMarks b bishopDirs pr pc r c
  | .king => kingMarks pr pc r c

/-- `getAttackedSquares(board, color)[r][c]`: is `(r, c)` attacked by the
side opposing `color`?  Out-of-range queries yield `false` (JS `undefined`). -/
def getAttackedSquares (b : Board) (color : Color) (r c : Int) : Bool :=
  allCells.any fun q =>
    match getSq b q.1 q.2 with
    | some p => if p.color = oppColor color then attacksCell b p q.1 q.2 r c else false
    | none => false

/- Per-piece attack predicates used by `isKingInCheck`
(`canPieceAttackSquare` and friends). -/

def canPawnAttackSquare (p : ChessPiece) (fromRow fromCol toRow toCol : Int) : Bool :=
  if (toCol - fromCol).natAbs = 1 ∧ toRow = fromRow + pieceDirection p.color then true else false

def canRookAttackSquare (b : Board) (fromRow fromCol toRow toCol : Int) : Bool :=
  if fromRow = toRow ∨ fromCol = toCol then isPathClear b fromRow fromCol toRow toCol else false

def canKnightAttackSquare (fromRow fromCol toRow toCol : Int) : Bool :=
  if ((toRow - fromRow).natAbs = 2 ∧ (toCol - fromCol).natAbs = 1)
      ∨ ((toRow - fromRow).natAbs = 1 ∧ (toCol - fromCol).natAbs = 2) then true else false

def canBishopAttackSquare (b : Board) (fromRow fromCol toRow toCol : Int) : Bool :=
  if (toRow - fromRow).natAbs = (toCol - fromCol).natAbs then
    isPathClear b fromRow fromCol toRow toCol
  else false

def canQueenAttackSquare (b : Board) (fromRow fromCol toRow toCol : Int) : Bool :=
  if (fromRow = toRow ∨ fromCol = toCol) ∨ (toRow - fromRow).natAbs = (toCol - fromCol).natAbs then
    isPathClear b fromRow fromCol toRow toCol
  else false

def canKingAttackSquare (fromRow fromCol toRow toCol : Int) : Bool :=
  if (toRow - fromRow).natAbs ≤ 1 ∧ (toCol - fromCol).natAbs ≤ 1 then true else false

def canPieceAttackSquare (b : Board) (p : ChessPiece) (fromRow fromCol toRow toCol : Int) : Bool :=
  if fromRow = toRow ∧ fromCol = toCol then false
  else
    match p.type with
    | .pawn => canPawnAttackSquare p fromRow fromCol toRow toCol
    | .rook => canRookAttackSquare b fromRow fromCol toRow toCol
    | .knight => canKnightAttackSquare fromRow fromCol toRow toCol
    | .bishop => canBishopAttackSquare b fromRow fromCol toRow toCol
    | .queen => canQueenAttackSquare b fromRow fromCol toRow toCol
    | .king => canKingAttackSquare fromRow fromCol toRow toCol

def kingCell (b : Board) (color : Color) (q : Int × Int) : Bool :=
  match getSq b q.1 q.2 with
  | some p => if p.type = .king ∧ p.color = color then true else false
  | none => false

/-- The first king of `color` in row-major scan order (the TS double loop
with its break-out flag). -/
def findKing (b : Board) (color : Color) : Option (Int × Int) :=
  allCells.find? (kingCell b color)

def isKingInCheck (b : Board) (color : Color) : Bool :=
  match findKing b color with
  | none => false
  | some k =>
    allCells.any fun q =>
      match getSq b q.1 q.2 with
      | some p =>
        if p.color = oppColor color then canPieceAttackSquare b p q.1 q.2 k.1 k.2 else false
      | none => false

def simulateMove (b : Board) (fromRow fromCol toRow toCol : Int) (p : ChessPiece) : Board :=
  setSq (setSq b toRow toCol (some { p with row := toRow, col := toCol })) fromRow fromCol none

/- Piece-shape legality (`isValidXMove`). -/

def isValidPawnMove (b : Board) (p : ChessPiece) (fromRow fromCol toRow toCol : Int) : Bool :=
  let d := pieceDirection p.color
  let startRow : Int := if p.color = .white then 6 else 1
  (if toCol = fromCol then
    (if toRow = fromRow + d ∧ (getSq b toRow toCol).isNone then true else false)
    || (if fromRow = startRow ∧ toRow = fromRow + 2 * d
          ∧ (getSq b (fromRow + d) fromCol).isNone ∧ (getSq b toRow toCol).isNone
        then true else false)
  else false)
  || (if (toCol - fromCol).natAbs = 1 ∧ toRow = fromRow + d then
        match getSq b toRow toCol with
        | some t => if t.color ≠ p.color then true else false
        | none => false
      else false)

def isValidRookMove (b : Board) (fromRow fromCol toRow toCol : Int) : Bool :=
  if fromRow ≠ toRow ∧ fromCol ≠ toCol then false
  else isPathClear b fromRow fromCol toRow toCol

def isValidKnightMove (fromRow fromCol toRow toCol : Int) : Bool :=
  if ((toRow - fromRow).natAbs = 2 ∧ (toCol - fromCol).natAbs = 1)
      ∨ ((toRow - fromRow).natAbs = 1 ∧ (toCol - fromCol).natAbs = 2) then true else false

def isValidBishopMove (b : Board) (fromRow fromCol toRow toCol : Int) : Bool :=
  if (toRow - fromRow).natAbs ≠ (toCol - fromCol).natAbs then false
  else isPathClear b fromRow fromCol toRow toCol

def isValidQueenMove (b : Board) (fromRow fromCol toRow toCol : Int) : Bool :=
  if ¬(fromRow = toRow ∨ fromCol = toCol) ∧ (toRow - fromRow).natAbs ≠ (toCol - fromCol).natAbs then
    false
  else isPathClear b fromRow fromCol toRow toCol

/-- A helper range of `Int`s, `lo..hi` inclusive (empty when `hi < lo`). -/
def intRange (lo hi : Int) : List Int :=
  (List.range (hi + 1 - lo).toNat).map fun (i : Nat) => lo + (i : Int)

/-- The columns the `for (col = fromCol; col != toCol; col += step)` transit
loop of `isValidCastling` visits: `fromCol` inclusive up to `toCol`
exclusive, stepping toward `toCol`. -/
def transitCols (fromCol toCol : Int) : List Int :=
  if toCol > fromCol then intRange fromCol (toCol - 1) else intRange (toCol + 1) fromCol

/-- The rook guard of `isValidCastling`: the expected corner holds an
unmoved rook of the king's color (`!rook || rook.type !== 'rook' || ...`
negated). -/
def rookReadyFor (b : Board) (king : ChessPiece) (fromRow rookCol : Int) : Bool :=
  match getSq b fromRow rookCol with
  | none => false
  | some rk => if rk.type = .rook ∧ rk.color = king.color ∧ rk.hasMoved = false then true else false

def isValidCastling (b : Board) (king : ChessPiece) (fromRow fromCol toCol : Int) : Bool :=
  if isKingInCheck b king.color then false
  else
    let isKingside := toCol > fromCol
    let rookCol : Int := if isKingside then 7 else 0
    rookReadyFor b king fromRow rookCol
    && ((intRange (min fromCol rookCol + 1) (max fromCol rookCol - 1)).all fun c =>
        (getSq b fromRow c).isNone)
    && ((transitCols fromCol toCol).all fun c => !(getAttackedSquares b king.color fromRow c))
    && !(getAttackedSquares b king.color fromRow toCol)

def isValidKingMove (b : Board) (p : ChessPiece) (fromRow fromCol toRow toCol : Int) : Bool :=
  if (toRow - fromRow).natAbs ≤ 1 ∧ (toCol - fromCol).natAbs ≤ 1 then
    !(friendlyAt b p toRow toCol)
    && !(getAttackedSquares b p.color toRow toCol)
    && !(isKingInCheck (simulateMove b fromRow fromCol toRow toCol p) p.color)
  else if (toRow - fromRow).natAbs = 0 ∧ (toCol - fromCol).natAbs = 2 ∧ ¬p.hasMoved then
    isValidCastling b p fromRow fromCol toCol
  else false

def isValidMove (b : Board) (p : ChessPiece) (fromRow fromCol toRow toCol : Int) : Bool :=
  if fromRow = toRow ∧ fromCol = toCol then false
  else if toRow < 0 ∨ toRow > 7 ∨ toCol < 0 ∨ toCol > 7 then false
  else if friendlyAt b p toRow toCol then false
  else
    (match p.type with
     | .pawn => isValidPawnMove b p fromRow fromCol toRow toCol
     | .rook => isValidRookMove b fromRow fromCol toRow toCol
     | .knight => isValidKnightMove fromRow fromCol toRow toCol
     | .bishop => isValidBishopMove b fromRow fromCol toRow toCol
     | .queen => isValidQueenMove b fromRow fromCol toRow toCol
     | .king => isValidKingMove b p fromRow fromCol toRow toCol)
    && !(isKingInCheck (simulateMove b fromRow fromCol toRow toCol p) p.color)

def getKingValidMoves (b : Board) (king : ChessPiece) (row col : Int) : List (Int × Int) :=
  let adj := kingAdjOffsets.filterMap fun o =>
    let toRow := row + o.1
    let toCol := col + o.2
    if inB toRow toCol
        ∧ friendlyAt b king toRow toCol = false
        ∧ getAttackedSquares b king.color toRow toCol = false
        ∧ isKingInCheck (simulateMove b row col toRow toCol king) king.color = false
    then some (toRow, toCol) else none
  let castles :=
    if ¬king.hasMoved ∧ ¬(isKingInCheck b king.color = true) then
      (if isValidCastling b king row col (col + 2) then [(row, col + 2)] else [])
      ++ (if isValidCastling b king row col (col - 2) then [(row, col - 2)] else [])
    else []
  adj ++ castles

def getValidMoves (b : Board) (p : ChessPiece) (row col : Int) : List (Int × Int) :=
  if p.type = .king then getKingValidMoves b p row col
  else allCells.filter fun d => isValidMove b p row col d.1 d.2

def sideHasNoMoves (b : Board) (color : Color) : Bool :=
  allCells.all fun q =>
    match getSq b q.1 q.2 with
    | some p => if p.color = color then (getValidMoves b p q.1 q.2).isEmpty else true
    | none => true

def isCheckmate (b : Board) (color : Color) : Bool :=
  isKingInCheck b color && sideHasNoMoves b color

def isStalemate (b : Board) (color : Color) : Bool :=
  !(isKingInCheck b color) && sideHasNoMoves b color

def canPromotePawn (p : ChessPiece) (toRow : Int) : Bool :=
  if p.type ≠ .pawn then false
  else if (p.color = .white ∧ toRow = 0) ∨ (p.color = .black ∧ toRow = 7) then true else false

/- Session state machine (the server's `GameState` record and handlers).
The `players` list and the websocket plumbing are transport-layer data the
session logic never reads; they are omitted.  The optional JS booleans
`check`/`checkmate`/`stalemate` start out `undefined`, which every reader
treats as `false`. -/

inductive GameStatus where
  | waiting
  | playing
  | check
  | checkmate
  | stalemate
  | draw
  | finished
deriving DecidableEq, Repr

structure CastlingSide where
  kingside : Bool
  queenside : Bool
deriving DecidableEq, Repr

structure CastlingRights where
  white : CastlingSide
  black : CastlingSide
deriving DecidableEq, Repr

structure LastMove where
  fromRow : Int
  fromCol : Int
  toRow : Int
  toCol : Int
  piece : ChessPiece
  promotion : Option PieceType
  isCastle : Bool
deriving DecidableEq, Repr

structure GameState where
  board : Board
  currentTurn : Color
  status : GameStatus
  winner : Option Color
  check : Bool
  checkmate : Bool
  stalemate : Bool
  castlingRights : CastlingRights
  halfMoveClock : Nat
  fullMoveNumber : Nat
  lastMove : Option LastMove
deriving DecidableEq, Repr

def colorName : Color → String
  | .white => "white"
  | .black => "black"

def typeName : PieceType → String
  | .pawn => "pawn"
  | .rook => "rook"
  | .knight => "knight"
  | .bishop => "bishop"
  | .queen => "queen"
  | .king => "king"

def pieceOrder : List PieceType := [.rook, .knight, .bishop, .queen, .king, .bishop, .knight, .rook]

def backRank (c : Color) (row : Int) : List (Option ChessPiece) :=
  pieceOrder.enum.map fun e =>
    some { type := e.2, color := c, id := colorName c ++ "_" ++ typeName e.2 ++ "_" ++ toString e.1,
           hasMoved := false, row := row, col := (e.1 : Int) }

def pawnRank (c : Color) (row : Int) : List (Option ChessPiece) :=
  (List.range 8).map fun (col : Nat) =>
    some { type := .pawn, color := c, id := colorName c ++ "_pawn_" ++ toString col,
           hasMoved := false, row := row, col := (col : Int) }

def emptyRank : List (Option ChessPiece) := List.replicate 8 none

def createInitialBoard : Board :=
  [backRank .black 0, pawnRank .black 1, emptyRank, emptyRank, emptyRank, emptyRank,
   pawnRank .white 6, backRank .white 7]

def createGame : GameState where
  board := createInitialBoard
  currentTurn := .white
  status := .waiting
  winner := none
  check := false
  checkmate := false
  stalemate := false
  castlingRights := { white := ⟨true, true⟩, black := ⟨true, true⟩ }
  halfMoveClock := 0
  fullMoveNumber := 1
  lastMove := none

def updateGameStatus (g : GameState) : GameState :=
  let whiteInCheck := isKingInCheck g.board .white
  let blackInCheck := isKingInCheck g.board .black
  let whiteCheckmate := isCheckmate g.board .white
  let blackCheckmate := isCheckmate g.board .black
  let whiteStalemate := isStalemate g.board .white
  let blackStalemate := isStalemate g.board .black
  let g1 :=
    if whiteCheckmate then
      { g with status := .checkmate, winner := some .black,
               checkmate := true, check := false, stalemate := false }
    else if blackCheckmate then
      { g with status := .checkmate, winner := some .white,
               checkmate := true, check := false, stalemate := false }
    else if whiteStalemate || blackStalemate then
      { g with status := .stalemate, stalemate := true,
               check := false, checkmate := false, winner := none }
    else if whiteInCheck && (g.currentTurn = .white : Bool) then
      { g with status := .check, check := true, checkmate := false, stalemate := false }
    else if blackInCheck && (g.currentTurn = .black : Bool) then
      { g with status := .check, check := true, checkmate := false, stalemate := false }
    else
      { g with status := .playing, check := false, checkmate := false,
               stalemate := false, winner := none }
  if g1.halfMoveClock ≥ 100 then { g1 with status := .draw } else g1

def handleCastling (board : Board) (fromRow fromCol toCol : Int) : Board :=
  let isKingside := toCol > fromCol
  let rookFromCol : Int := if isKingside then 7 else 0
  let rookToCol : Int := if isKingside then toCol - 1 else toCol + 1
  match getSq board fromRow rookFromCol with
  | some rk =>
    if rk.type = .rook then
      setSq (setSq board fromRow rookToCol
          (some { rk with row := fromRow, col := rookToCol, hasMoved := true }))
        fromRow rookFromCol none
    else board
  | none => board

def updateCastlingRights (cr : CastlingRights) (p : ChessPiece) (fromCol : Int) : CastlingRights :=
  if p.type = .king then
    if p.color = .white then { cr with white := ⟨false, false⟩ }
    else { cr with black := ⟨false, false⟩ }
  else if p.type = .rook then
    if p.color = .white then
      let w1 := if fromCol = 0 ∧ cr.white.queenside then { cr.white with queenside := false }
                else cr.white
      let w2 := if fromCol = 7 ∧ w1.kingside then { w1 with kingside := false } else w1
      { cr with white := w2 }
    else
      let b1 := if fromCol = 0 ∧ cr.black.queenside then { cr.black with queenside := false }
                else cr.black
      let b2 := if fromCol = 7 ∧ b1.kingside then { b1 with kingside := false } else b1
      { cr with black := b2 }
  else cr

structure MoveReq where
  fromRow : Int
  fromCol : Int
  toRow : Int
  toCol : Int
  piece : ChessPiece
  promotion : Option PieceType
deriving DecidableEq, Repr

inductive MoveOutcome where
  /-- `Game is not in playing state` -/
  | gameNotPlaying
  /-- `It's not your turn` -/
  | wrongTurn
  /-- `No piece at selected position` -/
  | noPieceAtFrom
  /-- `Piece mismatch` -/
  | pieceMismatch
  /-- `Invalid move for ...` -/
  | invalidMove
  /-- `board[from.row]` is `undefined`, so indexing it throws a TypeError
  that the websocket handler's try/catch swallows; no state is touched. -/
  | fault
  | accepted
deriving DecidableEq, Repr

/-- Fresh id minted on promotion.  The TS id also embeds `Date.now()`; the
timestamp is an opaque fresh token no game logic ever inspects, so it is
omitted from the id here. -/
def promotedPieceId (c : Color) (t : PieceType) : String :=
  colorName c ++ "_" ++ typeName t ++ "_promoted"

/-- The accepted-move tail of `handleMove`: special-move side effects,
piece relocation, rights/counters/turn updates, status recomputation and
the `lastMove` record, in the source's order. -/
def applyAcceptedMove (g : GameState) (req : MoveReq) : GameState :=
  let fr := req.fromRow
  let fc := req.fromCol
  let tr := req.toRow
  let tc := req.toCol
  let piece0 := req.piece
  -- special-move chain (if / else-if / else-if)
  let special : Board × ChessPiece :=
    if piece0.type = .king ∧ (tc - fc).natAbs = 2 then
      (handleCastling g.board fr fc tc, piece0)
    else if piece0.type = .pawn ∧ fc ≠ tc ∧ (getSq g.board tr tc).isNone then
      let capturedPawnRow := if piece0.color = .white then tr + 1 else tr - 1
      (setSq g.board capturedPawnRow tc none, piece0)
    else if piece0.type = .pawn ∧ canPromotePawn piece0 tr then
      let promotionType := req.promotion.getD .queen
      (g.board, { piece0 with type := promotionType,
                              id := promotedPieceId piece0.color promotionType })
    else (g.board, piece0)
  let piece1 := { special.2 with row := tr, col := tc, hasMoved := true }
  let rights := updateCastlingRights g.castlingRights piece1 fc
  let boardFinal := setSq (setSq special.1 tr tc (some piece1)) fr fc none
  -- the clock test reads the board AFTER the piece was placed on `to`
  let clock : Nat :=
    if piece1.type = .pawn ∨ (getSq boardFinal tr tc).isSome then 0 else g.halfMoveClock + 1
  let fullMove := if g.currentTurn = .black then g.fullMoveNumber + 1 else g.fullMoveNumber
  let newTurn := if g.currentTurn = .white then Color.black else Color.white
  let g2 := { g with board := boardFinal, castlingRights := rights, halfMoveClock := clock,
                     fullMoveNumber := fullMove, currentTurn := newTurn }
  let g3 := updateGameStatus g2
  { g3 with lastMove := some { fromRow := fr, fromCol := fc, toRow := tr, toCol := tc,
                               piece := piece1, promotion := req.promotion, isCastle := false } }

def handleMove (g : GameState) (req : MoveReq) : MoveOutcome × GameState :=
  if g.status ≠ .playing then (.gameNotPlaying, g)
  else if req.piece.color ≠ g.currentTurn then (.wrongTurn, g)
  else if req.fromRow < 0 ∨ 7 < req.fromRow then (.fault, g)
  else
    match getSq g.board req.fromRow req.fromCol with
    | none => (.noPieceAtFrom, g)
    | some actualPiece =>
      if actualPiece.id ≠ req.piece.id then (.pieceMismatch, g)
      else if isValidMove g.board req.piece req.fromRow req.fromCol req.toRow req.toCol = false then
        (.invalidMove, g)
      else (.accepted, applyAcceptedMove g req)

/- Concrete positions used to exercise the model. -/

def emptyBoard : Board := List.replicate 8 emptyRank

def wkS : ChessPiece :=
  { type := .king, color := .white, id := "wkS", hasMoved := true, row := 7, col := 4 }

def bkS : ChessPiece :=
  { type := .king, color := .black, id := "bkS", hasMoved := true, row := 0, col := 4 }

def wnS : ChessPiece :=
  { type := .knight, color := .white, id := "wnS", hasMoved := true, row := 5, col := 5 }

/-- Kings on e-files plus a white knight on f3. -/
def smallBoard : Board :=
  setSq (setSq (setSq emptyBoard 7 4 (some wkS)) 0 4 (some bkS)) 5 5 (some wnS)

def gSmall : GameState where
  board := smallBoard
  currentTurn := .white
  status := .playing
  winner := none
  check := false
  checkmate := false
  stalemate := false
  castlingRights := { white := ⟨false, false⟩, black := ⟨false, false⟩ }
  halfMoveClock := 7
  fullMoveNumber := 3
  lastMove := none

/-- A quiet knight move: no pawn involved, destination empty. -/
def reqSmall : MoveReq :=
  { fromRow := 5, fromCol := 5, toRow := 3, toCol := 4, piece := wnS, promotion := none }

def bkM : ChessPiece :=
  { type := .king, color := .black, id := "bkM", hasMoved := true, row := 0, col := 0 }

def wr1M : ChessPiece :=
  { type := .rook, color := .white, id := "wr1M", hasMoved := true, row := 0, col := 7 }

def wr2M : ChessPiece :=
  { type := .rook, color := .white, id := "wr2M", hasMoved := true, row := 1, col := 7 }

def wkM : ChessPiece :=
  { type := .king, color := .white, id := "wkM", hasMoved := true, row := 7, col := 7 }

/-- Two white rooks deliver a back-rank mate against the black king. -/
def mateBoard : Board :=
  setSq (setSq (setSq (setSq emptyBoard 0 0 (some bkM)) 0 7 (some wr1M)) 1 7 (some wr2M))
    7 7 (some wkM)

/-- The mated position with the half-move clock already at 100. -/
def gMate : GameState where
  board := mateBoard
  currentTurn := .black
  status := .playing
  winner := none
  check := false
  checkmate := false
  stalemate := false
  castlingRights := { white := ⟨false, false⟩, black := ⟨false, false⟩ }
  halfMoveClock := 100
  fullMoveNumber := 60
  lastMove := none

def wkC7 : ChessPiece :=
  { type := .king, color := .white, id := "wkC7", hasMoved := false, row := 7, col := 4 }

def wrC7 : ChessPiece :=
  { type := .rook, color := .white, id := "wrC7", hasMoved := false, row := 7, col := 7 }

def bkC7 : ChessPiece :=
  { type := .king, color := .black, id := "bkC7", hasMoved := true, row := 0, col := 4 }

/-- White may castle kingside: unmoved king e1, unmoved rook h1, f1/g1 empty,
no black piece attacks the transit squares. -/
def castBoard : Board :=
  setSq (setSq (setSq emptyBoard 7 4 (some wkC7)) 7 7 (some wrC7)) 0 4 (some bkC7)

def epWP : ChessPiece :=
  { type := .pawn, color := .white, id := "epWP", hasMoved := true, row := 3, col := 4 }

def epBP : ChessPiece :=
  { type := .pawn, color := .black, id := "epBP", hasMoved := true, row := 3, col := 3 }

/-- White pawn e5 next to black pawn d5 which just advanced two squares:
the canonical en-passant situation. -/
def epBoard : Board :=
  setSq (setSq (setSq (setSq emptyBoard 7 4 (some wkS)) 0 4 (some bkS)) 3 4 (some epWP))
    3 3 (some epBP)

def gEP : GameState where
  board := epBoard
  currentTurn := .white
  status := .playing
  winner := none
  check := false
  checkmate := false
  stalemate := false
  castlingRights := { white := ⟨false, false⟩, black := ⟨false, false⟩ }
  halfMoveClock := 0
  fullMoveNumber := 2
  lastMove := some { fromRow := 1, fromCol := 3, toRow := 3, toCol := 3, piece := epBP,
                     promotion := none, isCastle := false }

/-- The en-passant capture exd6: diagonal onto the empty passed-over square. -/
def reqEP : MoveReq :=
  { fromRow := 3, fromCol := 4, toRow := 2, toCol := 3, piece := epWP, promotion := none }

def brC1 : ChessPiece :=
  { type := .rook, color := .black, id := "brC1", hasMoved := true, row := 7, col := 0 }

/-- A black rook gives check to the white king along the first rank. -/
def checkBoard : Board :=
  setSq (setSq (setSq emptyBoard 7 4 (some wkS)) 0 4 (some bkS)) 7 0 (some brC1)

/-- The session as `updateGameStatus` leaves it after the checking move:
status `check`, white to move. -/
def gCheck : GameState where
  board := checkBoard
  currentTurn := .white
  status := .check
  winner := none
  check := true
  checkmate := false
  stalemate := false
  castlingRights := { white := ⟨false, false⟩, black := ⟨false, false⟩ }
  halfMoveClock := 3
  fullMoveNumber := 10
  lastMove := none

/-- The obvious escape Ke1-e2. -/
def reqCheck : MoveReq :=
  { fromRow := 7, fromCol := 4, toRow := 6, toCol := 4, piece := wkS, promotion := none }

/- Spec-side formulations of the five castling preconditions (section 4.3 of
the specification), for comparison with `isValidKingMove`/`isValidCastling`. -/

def specKingUnmoved (king : ChessPiece) : Prop := king.hasMoved = false

def specNotInCheck (b : Board) (king : ChessPiece) : Prop :=
  isKingInCheck b king.color = false

/-- The expected corner holds a same-side rook that has never moved. -/
def specRookReady (b : Board) (king : ChessPiece) (row fromCol toCol : Int) : Prop :=
  ∃ rk, getSq b row (if toCol > fromCol then 7 else 0) = some rk ∧
    rk.type = .rook ∧ rk.color = king.color ∧ rk.hasMoved = false

/-- Every square strictly between king and rook is empty. -/
def specBetweenEmpty (b : Board) (row fromCol toCol : Int) : Prop :=
  ∀ x : Int, min fromCol (if toCol > fromCol then 7 else 0) < x →
    x < max fromCol (if toCol > fromCol then 7 else 0) → getSq b row x = none

/-- None of the squares the king transits (start, crossed, end) is in the
opponent's attack map. -/
def specTransitSafe (b : Board) (king : ChessPiece) (row fromCol toCol : Int) : Prop :=
  getAttackedSquares b king.color row fromCol = false ∧
  getAttackedSquares b king.color row ((fromCol + toCol) / 2) = false ∧
  getAttackedSquares b king.color row toCol = false

/-- Row-major scan order on cells (the order of the TS double loops). -/
abbrev cellLt (a b : Int × Int) : Prop := a.1 < b.1 ∨ (a.1 = b.1 ∧ a.2 < b.2)

/-- Normal form of a sliding attack: the target lies `k` steps from the
piece in direction `d`, with every strictly intermediate square empty. -/
def sliderNF (b : Board) (dirs : List (Int × Int)) (pr pc r c : Int) : Prop :=
  ∃ d ∈ dirs, ∃ k : Nat, 1 ≤ k ∧ r = pr + d.1 * k ∧ c = pc + d.2 * k ∧
    ∀ j : Nat, 1 ≤ j → j < k → getSq b (pr + d.1 * j) (pc + d.2 * j) = none

/-- A sliding direction: each component is -1, 0 or 1 and not both are 0. -/
abbrev unitDir (d : Int × Int) : Prop :=
  (d.1 = -1 ∨ d.1 = 0 ∨ d.1 = 1) ∧ (d.2 = -1 ∨ d.2 = 0 ∨ d.2 = 1) ∧ ¬(d.1 = 0 ∧ d.2 = 0)

/- Basic board lemmas. -/

lemma getSq_oob (b : Board) {x y : Int} (h : ¬inB x y) : getSq b x y = none := by
  unfold getSq
  rw [if_neg h]

lemma getSq_setSq (b : Board) (r c : Int) (v : Option ChessPiece) (x y : Int) :
    getSq (setSq b r c v) x y =
      if inB x y then (if x = r ∧ y = c then v else getSq b x y) else none := by
  by_cases h : inB x y
  · have hx : x.toNat < 8 := by omega
    have hy : y.toNat < 8 := by omega
    have hx2 : (x.toNat : Int) = x := by omega
    have hy2 : (y.toNat : Int) = y := by omega
    rw [if_pos h]
    unfold getSq setSq
    rw [if_pos h]
    simp only [List.getD_eq_getElem?_getD, List.getElem?_map, List.getElem?_range, hx, hy,
      if_pos, Option.map_some, Option.map_some', Option.getD_some, hx2, hy2]
    rw [show getSq b x y = (b.getD x.toNat []).getD y.toNat none from by
      unfold getSq; rw [if_pos h]]
    simp only [List.getD_eq_getElem?_getD, if_pos h]
  · unfold getSq
    rw [if_neg h, if_neg h]

lemma getSq_setSq_self (b : Board) {r c : Int} (v : Option ChessPiece) (h : inB r c) :
    getSq (setSq b r c v) r c = v := by
  rw [getSq_setSq, if_pos h, if_pos ⟨rfl, rfl⟩]

lemma getSq_setSq_ne (b : Board) {r c : Int} (v : Option ChessPiece) {x y : Int}
    (h : ¬(x = r ∧ y = c)) : getSq (setSq b r c v) x y = getSq b x y := by
  by_cases hb : inB x y
  · rw [getSq_setSq, if_pos hb, if_neg h]
  · rw [getSq_setSq, if_neg hb, getSq_oob b hb]

lemma mem_intRange {lo hi x : Int} : x ∈ intRange lo hi ↔ lo ≤ x ∧ x ≤ hi := by
  unfold intRange
  simp only [List.mem_map, List.mem_range]
  constructor
  · rintro ⟨i, hi2, rfl⟩
    omega
  · rintro ⟨h1, h2⟩
    exact ⟨(x - lo).toNat, by omega, by omega⟩

lemma mem_allCells {q : Int × Int} : q ∈ allCells ↔ inB q.1 q.2 := by
  obtain ⟨a, b⟩ := q
  unfold allCells
  simp only [List.mem_flatMap, List.mem_map, List.mem_range, Prod.mk.injEq]
  constructor
  · rintro ⟨r, hr, c, hc, h1, h2⟩
    refine ⟨by omega, by omega, by omega, by omega⟩
  · rintro ⟨h1, h2, h3, h4⟩
    exact ⟨a.toNat, by omega, b.toNat, by omega, by omega, by omega⟩

/-- An accepted move’s basic geometry: the destination differs from the
origin and lies on the board. -/
lemma isValidMove_facts {b : Board} {p : ChessPiece} {fr fc tr tc : Int}
    (h : isValidMove b p fr fc tr tc = true) :
    ¬(fr = tr ∧ fc = tc) ∧ inB tr tc := by
  unfold isValidMove at h
  split at h
  · exact absurd h (by simp)
  · split at h
    · exact absurd h (by simp)
    · constructor
      · omega
      · omega

/-- `updateGameStatus` never touches the half-move clock. -/
lemma updateGameStatus_clock (g : GameState) :
    (updateGameStatus g).halfMoveClock = g.halfMoveClock := by
  simp only [updateGameStatus]
  split_ifs <;> rfl

/-- Every branch of `handleMove` either accepts (delegating to
`applyAcceptedMove`) or returns the session unchanged. -/
lemma handleMove_cases (g : GameState) (req : MoveReq) :
    handleMove g req = (.accepted, applyAcceptedMove g req) ∨ (handleMove g req).2 = g := by
  unfold handleMove
  split
  · right; rfl
  · split
    · right; rfl
    · split
      · right; rfl
      · split
        · right; rfl
        · split
          · right; rfl
          · split
            · right; rfl
            · left; rfl

/-- The legality engine rejects every pawn move that is diagonal onto an
empty square, whatever the session history — the en-passant branch of
`handleMove` is unreachable. -/
lemma pawn_empty_diagonal_rejected (b : Board) (p : ChessPiece) (fr fc tr tc : Int)
    (hp : p.type = .pawn) (hne : fc ≠ tc) (he : getSq b tr tc = none) :
    isValidMove b p fr fc tr tc = false := by
  unfold isValidMove
  split
  · rfl
  · split
    · rfl
    · split
      · rfl
      · rw [hp]
        simp only [Bool.and_eq_false_imp]
        intro hshape
        exfalso
        simp only [isValidPawnMove] at hshape
        rw [if_neg (by omega : ¬tc = fc), he] at hshape
        simp only [Bool.false_or] at hshape
        split at hshape
        · exact absurd hshape (by simp)
        · exact absurd hshape (by simp)

/-- On every accepted move the half-move clock is reset to 0: the capture
test reads the destination square after the moved piece was already placed
there, so it always reports an occupied square. -/
theorem handleMove_always_resets_clock (g : GameState) (req : MoveReq) (g' : GameState)
    (h : handleMove g req = (.accepted, g')) : g'.halfMoveClock = 0 := by
  unfold handleMove at h
  split at h
  · exact absurd h (by simp)
  · split at h
    · exact absurd h (by simp)
    · split at h
      · exact absurd h (by simp)
      · split at h
        · exact absurd h (by simp)
        · split at h
          · exact absurd h (by simp)
          · split at h
            · exact absurd h (by simp)
            · rename_i hval
              have hv : isValidMove g.board req.piece req.fromRow req.fromCol
                  req.toRow req.toCol = true := by
                revert hval
                cases isValidMove g.board req.piece req.fromRow req.fromCol req.toRow req.toCol
                · intro hval; exact absurd rfl hval
                · intro _; rfl
              obtain ⟨hne, hbd⟩ := isValidMove_facts hv
              have hg : g' = applyAcceptedMove g req := ((Prod.mk.injEq _ _ _ _).mp h).2.symm
              subst hg
              simp only [applyAcceptedMove, updateGameStatus_clock]
              rw [if_pos]
              right
              rw [getSq_setSq_ne _ _ (by omega : ¬(req.toRow = req.fromRow ∧ req.toCol = req.fromCol)),
                getSq_setSq_self _ _ hbd]
              rfl

/-- C9 (counterexample): `createGame` initialises the full-move number to 1,
not 0 as the claim states. -/
theorem c9_full_move_number_is_not_zero : createGame.fullMoveNumber ≠ 0 := by decide

/-- C9 (amended): `create_session` produces the fixed standard starting
arrangement (back ranks rook-knight-bishop-queen-king, pawn rows in front,
middle empty, all pieces not yet moved), all four castling rights, the
half-move clock 0, the full-move number 1 (not 0), side-to-move white, and
status waiting. -/
theorem c9_create_session_initial_state :
    createGame.status = GameStatus.waiting ∧
    createGame.castlingRights = { white := ⟨true, true⟩, black := ⟨true, true⟩ } ∧
    createGame.halfMoveClock = 0 ∧
    createGame.fullMoveNumber = 1 ∧
    createGame.currentTurn = Color.white ∧
    createGame.winner = none ∧
    (∀ c ∈ List.range 8,
      (getSq createGame.board 0 (c : Int)).map (fun p => (p.type, p.color, p.hasMoved))
          = some (pieceOrder.getD c .pawn, Color.black, false) ∧
      (getSq createGame.board 1 (c : Int)).map (fun p => (p.type, p.color, p.hasMoved))
          = some (PieceType.pawn, Color.black, false) ∧
      (getSq createGame.board 6 (c : Int)).map (fun p => (p.type, p.color, p.hasMoved))
          = some (PieceType.pawn, Color.white, false) ∧
      (getSq createGame.board 7 (c : Int)).map (fun p => (p.type, p.color, p.hasMoved))
          = some (pieceOrder.getD c .pawn, Color.white, false)) ∧
    (∀ r ∈ List.range 8, ∀ c ∈ List.range 8, 2 ≤ r → r ≤ 5 →
      getSq createGame.board (r : Int) (c : Int) = none) := by
  decide

/-- C1: contrary to the claim, the status precheck of `handleMove` rejects a
session whose status is `check` (it only lets `status = playing` through), so
a game that enters check can never continue: here white is in check, has the
legal escape Ke1-e2, and still every move is refused with the status
rejection while the session is left unchanged. -/
theorem c1_check_status_is_rejected :
    gCheck.status = GameStatus.check ∧
    isKingInCheck gCheck.board Color.white = true ∧
    isValidMove gCheck.board wkS 7 4 6 4 = true ∧
    handleMove gCheck reqCheck = (MoveOutcome.gameNotPlaying, gCheck) := by
  refine ⟨rfl, by decide, by decide, ?_⟩
  unfold handleMove
  rw [if_pos (by decide)]

/-- C2: a quiet knight move (no pawn, no capture: the destination square is
empty beforehand) is accepted, yet the half-move clock drops from 7 to 0
instead of rising to 8 — the capture test looks at the destination square
after the piece was placed there, so every accepted move resets the clock. -/
theorem c2_quiet_move_resets_clock :
    reqSmall.piece.type ≠ PieceType.pawn ∧
    getSq gSmall.board reqSmall.toRow reqSmall.toCol = none ∧
    gSmall.halfMoveClock = 7 ∧
    (handleMove gSmall reqSmall).1 = MoveOutcome.accepted ∧
    (handleMove gSmall reqSmall).2.halfMoveClock = 0 := by
  decide

/-- C3: the canonical en-passant situation — the immediately preceding move
was the two-square advance d7-d5 by black landing adjacent to the white pawn
on e5 — and still the capture exd6 onto the empty passed-over square is
rejected: `isValidMove` never consults the last move, so the en-passant
branch of `handleMove` is dead code. -/
theorem c3_en_passant_always_rejected :
    gEP.lastMove = some { fromRow := 1, fromCol := 3, toRow := 3, toCol := 3, piece := epBP,
                          promotion := none, isCastle := false } ∧
    getSq gEP.board 3 3 = some epBP ∧ epBP.type = PieceType.pawn ∧ epBP.color = Color.black ∧
    getSq gEP.board 3 4 = some epWP ∧ epWP.type = PieceType.pawn ∧ epWP.color = Color.white ∧
    getSq gEP.board 2 3 = none ∧
    isValidMove gEP.board epWP 3 4 2 3 = false ∧
    handleMove gEP reqEP = (MoveOutcome.invalidMove, gEP) := by
  refine ⟨rfl, by decide, rfl, rfl, by decide, rfl, rfl, by decide, ?_, by decide⟩
  exact pawn_empty_diagonal_rejected _ _ _ _ _ _ rfl (by decide) (by decide)

/-- C10: a side with no king on the board is never "in check" (the king scan
finds nothing and returns false rather than failing), hence never in
checkmate; if such a side also has no legal move for any of its pieces it is
classified as stalemate. -/
theorem c10_kingless_side (b : Board) (color : Color)
    (h : ∀ q ∈ allCells, kingCell b color q = false) :
    isKingInCheck b color = false ∧ isCheckmate b color = false ∧
      (sideHasNoMoves b color = true → isStalemate b color = true) := by
  have hf : findKing b color = none := by
    apply List.find?_eq_none.mpr
    intro q hq
    simp [h q hq]
  refine ⟨?_, ?_, ?_⟩
  · unfold isKingInCheck
    rw [hf]
  · unfold isCheckmate
    unfold isKingInCheck
    rw [hf]
    rfl
  · intro hs
    unfold isStalemate
    unfold isKingInCheck
    rw [hf, hs]
    rfl

/-- C10 (witness): the empty board is kingless for white, not in check, not
checkmated, and — every piece set being empty — a stalemate. -/
theorem c10_kingless_witness :
    isKingInCheck emptyBoard Color.white = false ∧
    isCheckmate emptyBoard Color.white = false ∧
    isStalemate emptyBoard Color.white = true := by
  have h := c10_kingless_side emptyBoard Color.white (by decide)
  exact ⟨h.1, h.2.1, h.2.2 (by decide)⟩

/-- C4 (counterexample): in a position that is checkmate (two white rooks
mate the black king) with the half-move clock at 100, `updateGameStatus`
reports `draw`, not `checkmate` — the half-move-clock draw is applied after
and on top of the checkmate branch, the opposite of the claimed priority. -/
theorem c4_draw_overrides_checkmate :
    isCheckmate gMate.board Color.black = true ∧
    gMate.halfMoveClock = 100 ∧
    (updateGameStatus gMate).status = GameStatus.draw ∧
    (updateGameStatus gMate).status ≠ GameStatus.checkmate := by
  decide

/-- C4 (amended): after every applied move the status is recomputed in the
priority order checkmate (either side, white first) > stalemate (either
side) > check (side to move) > playing, and then a half-move clock of 100 or
more overrides the result with `draw` — including overriding checkmate.  The
winner is set by the checkmate branch to the mating side, and cleared in the
stalemate and playing branches. -/
theorem c4_status_priority (g : GameState) :
    ((updateGameStatus g).status = GameStatus.draw ↔ 100 ≤ g.halfMoveClock) ∧
    (g.halfMoveClock < 100 →
      (((updateGameStatus g).status = GameStatus.checkmate ↔
          (isCheckmate g.board Color.white = true ∨ isCheckmate g.board Color.black = true)) ∧
       (isCheckmate g.board Color.white = true →
          (updateGameStatus g).winner = some Color.black) ∧
       (isCheckmate g.board Color.white = false → isCheckmate g.board Color.black = true →
          (updateGameStatus g).winner = some Color.white) ∧
       ((updateGameStatus g).status = GameStatus.stalemate ↔
          (isCheckmate g.board Color.white = false ∧ isCheckmate g.board Color.black = false ∧
           (isStalemate g.board Color.white = true ∨ isStalemate g.board Color.black = true))) ∧
       ((updateGameStatus g).status = GameStatus.check ↔
          (isCheckmate g.board Color.white = false ∧ isCheckmate g.board Color.black = false ∧
           isStalemate g.board Color.white = false ∧ isStalemate g.board Color.black = false ∧
           isKingInCheck g.board g.currentTurn = true)) ∧
       ((updateGameStatus g).status = GameStatus.playing ↔
          (isCheckmate g.board Color.white = false ∧ isCheckmate g.board Color.black = false ∧
           isStalemate g.board Color.white = false ∧ isStalemate g.board Color.black = false ∧
           isKingInCheck g.board g.currentTurn = false)) ∧
       ((updateGameStatus g).status = GameStatus.stalemate →
          (updateGameStatus g).winner = none) ∧
       ((updateGameStatus g).status = GameStatus.playing →
          (updateGameStatus g).winner = none))) := by
  cases ht : g.currentTurn <;>
    (simp only [updateGameStatus, ht] ; split_ifs <;> simp_all <;>
      try (constructor <;> (intro hw hb; rcases ‹_ ∨ _› with hor | hor <;> simp_all)))

/-- C4 (witness): instantiating the priority characterisation at the
concrete mated position with the clock at 100 yields status `draw`. -/
theorem c4_status_priority_witness : (updateGameStatus gMate).status = GameStatus.draw :=
  (c4_status_priority gMate).1.mpr (by decide)

/-- C8: whenever `handleMove` rejects — for any reason — the session is
returned unchanged, and resubmitting the identical request against the
resulting state reproduces exactly the same outcome and state. -/
theorem c8_rejection_mutates_nothing (g : GameState) (req : MoveReq)
    (h : (handleMove g req).1 ≠ MoveOutcome.accepted) :
    (handleMove g req).2 = g ∧
      handleMove ((handleMove g req).2) req = handleMove g req := by
  have hsnd : (handleMove g req).2 = g := by
    rcases handleMove_cases g req with hc | hc
    · rw [hc] at h
      exact absurd rfl h
    · exact hc
  exact ⟨hsnd, by rw [hsnd]⟩

/-- C8 (witness): a move submitted to a freshly created session (still
`waiting`) is rejected and the session state is bit-for-bit unchanged. -/
theorem c8_rejection_witness :
    (handleMove createGame reqSmall).2 = createGame ∧
      handleMove ((handleMove createGame reqSmall).2) reqSmall = handleMove createGame reqSmall :=
  c8_rejection_mutates_nothing createGame reqSmall (by decide)

lemma intRange_pair (lo : Int) : intRange lo (lo + 1) = [lo, lo + 1] := by
  unfold intRange
  rw [show lo + 1 + 1 - lo = 2 by ring]
  simp [List.range_succ]

lemma intRange_pair2 (lo hi : Int) (h : hi = lo + 1) : intRange lo hi = [lo, hi] := by
  subst h
  exact intRange_pair lo

/-- C7: a two-square horizontal king move is accepted by the king-move rule
exactly when the five castling preconditions hold simultaneously: king never
moved, king's side not in check, a same-side unmoved rook on the expected
corner, all squares strictly between king and rook empty, and none of the
king's transit squares (start, crossed, end) attacked.  Consequently
negating any single precondition makes the move illegal. -/
lemma rookReadyFor_iff (b : Board) (king : ChessPiece) (fromRow rookCol : Int) :
    rookReadyFor b king fromRow rookCol = true ↔
      ∃ rk, getSq b fromRow rookCol = some rk ∧
        rk.type = .rook ∧ rk.color = king.color ∧ rk.hasMoved = false := by
  unfold rookReadyFor
  cases h : getSq b fromRow rookCol <;> simp [h]

theorem c7_castling_iff_five_preconditions (b : Board) (king : ChessPiece)
    (row fromCol toCol : Int) (ht : king.type = .king)
    (hd : toCol = fromCol + 2 ∨ toCol = fromCol - 2) :
    isValidKingMove b king row fromCol row toCol = true ↔
      (specKingUnmoved king ∧ specNotInCheck b king ∧
       specRookReady b king row fromCol toCol ∧
       specBetweenEmpty b row fromCol toCol ∧
       specTransitSafe b king row fromCol toCol) := by
  unfold isValidKingMove
  rw [if_neg (by omega : ¬((row - row).natAbs ≤ 1 ∧ (toCol - fromCol).natAbs ≤ 1))]
  by_cases hm : king.hasMoved
  · rw [if_neg (by simp [hm])]
    simp [specKingUnmoved, hm]
  · have hmf : king.hasMoved = false := by simpa using hm
    rw [if_pos ⟨by omega, by omega, hm⟩]
    simp only [isValidCastling]
    by_cases hchk : isKingInCheck b king.color
    · rw [if_pos hchk]
      simp [specNotInCheck, hchk]
    · rw [if_neg hchk]
      have hnc : specNotInCheck b king := by simpa [specNotInCheck] using hchk
      simp only [Bool.and_eq_true, List.all_eq_true, Bool.not_eq_true']
      unfold specRookReady specBetweenEmpty specTransitSafe
      rcases hd with rfl | rfl
      · have hif : (if fromCol + 2 > fromCol then (7 : Int) else 0) = 7 := if_pos (by omega)
        have htc : transitCols fromCol (fromCol + 2) = [fromCol, fromCol + 1] := by
          unfold transitCols
          rw [if_pos (by omega), show fromCol + 2 - 1 = fromCol + 1 by ring, intRange_pair]
        have hmid : (fromCol + (fromCol + 2)) / 2 = fromCol + 1 := by omega
        simp only [hif, htc, hmid]
        constructor
        · rintro ⟨⟨⟨hrook, hbet⟩, htr⟩, hend⟩
          refine ⟨hmf, hnc, (rookReadyFor_iff _ _ _ _).mp hrook, ?_, ?_, ?_, ?_⟩
          · intro x h1 h2
            simpa using hbet x (mem_intRange.mpr ⟨by omega, by omega⟩)
          · exact htr fromCol (by simp)
          · exact htr (fromCol + 1) (by simp)
          · exact hend
        · rintro ⟨-, -, hrook, hbet, h1, h2, h3⟩
          refine ⟨⟨⟨(rookReadyFor_iff _ _ _ _).mpr hrook, ?_⟩, ?_⟩, h3⟩
          · intro x hx
            have hb := mem_intRange.mp hx
            simpa using hbet x (by omega) (by omega)
          · intro x hx
            simp only [List.mem_cons, List.mem_singleton, List.not_mem_nil, or_false] at hx
            rcases hx with rfl | rfl
            · exact h1
            · exact h2
      · have hif : (if fromCol - 2 > fromCol then (7 : Int) else 0) = 0 := if_neg (by omega)
        have htc : transitCols fromCol (fromCol - 2) = [fromCol - 1, fromCol] := by
          unfold transitCols
          rw [if_neg (by omega), show fromCol - 2 + 1 = fromCol - 1 by ring]
          exact intRange_pair2 _ _ (by ring)
        have hmid : (fromCol + (fromCol - 2)) / 2 = fromCol - 1 := by omega
        simp only [hif, htc, hmid]
        constructor
        · rintro ⟨⟨⟨hrook, hbet⟩, htr⟩, hend⟩
          refine ⟨hmf, hnc, (rookReadyFor_iff _ _ _ _).mp hrook, ?_, ?_, ?_, ?_⟩
          · intro x h1 h2
            simpa using hbet x (mem_intRange.mpr ⟨by omega, by omega⟩)
          · exact htr fromCol (by simp)
          · exact htr (fromCol - 1) (by simp)
          · exact hend
        · rintro ⟨-, -, hrook, hbet, h1, h2, h3⟩
          refine ⟨⟨⟨(rookReadyFor_iff _ _ _ _).mpr hrook, ?_⟩, ?_⟩, h3⟩
          · intro x hx
            have hb := mem_intRange.mp hx
            simpa using hbet x (by omega) (by omega)
          · intro x hx
            simp only [List.mem_cons, List.mem_singleton, List.not_mem_nil, or_false] at hx
            rcases hx with rfl | rfl
            · exact h2
            · exact h1

/-- C7 (witness): in the concrete castle-ready position (unmoved king e1,
unmoved rook h1, f1/g1 empty, no attackers) the accepted two-square king
move e1-g1 yields all five preconditions. -/
theorem c7_castling_witness :
    specKingUnmoved wkC7 ∧ specNotInCheck castBoard wkC7 ∧
    specRookReady castBoard wkC7 7 4 6 ∧
    specBetweenEmpty castBoard 7 4 6 ∧
    specTransitSafe castBoard wkC7 7 4 6 :=
  (c7_castling_iff_five_preconditions castBoard wkC7 7 4 6 rfl (by omega)).mp (by decide)


/- Scan-order machinery: `findKing` returns the first king in `cellLt`
order. -/

lemma allCells_pairwise : allCells.Pairwise cellLt := by decide

lemma cellLt_irrefl (a : Int × Int) : ¬cellLt a a := by
  unfold cellLt
  omega

lemma cellLt_asymm {a b : Int × Int} (h : cellLt a b) : ¬cellLt b a := by
  unfold cellLt at *
  omega

lemma find?_allCells_eq_some {p : Int × Int → Bool} {a : Int × Int} :
    allCells.find? p = some a ↔
      (a ∈ allCells ∧ p a = true ∧ ∀ y ∈ allCells, cellLt y a → p y = false) := by
  constructor
  · intro h
    rcases List.find?_eq_some.mp h with ⟨hpa, as, bs, heq, hprefix⟩
    refine ⟨by rw [heq]; simp, hpa, ?_⟩
    intro y hy hlt
    have hpw := allCells_pairwise
    rw [heq] at hpw hy
    rcases List.mem_append.mp hy with hy1 | hy2
    · simpa using hprefix y hy1
    · rcases List.mem_cons.mp hy2 with rfl | hy3
      · exact absurd hlt (cellLt_irrefl _)
      · have hab : cellLt a y := by
          have hsplit := (List.pairwise_append.mp hpw).2.1
          exact (List.pairwise_cons.mp hsplit).1 y hy3
        exact absurd hlt (cellLt_asymm hab)
  · rintro ⟨hmem, hpa, hmin⟩
    have hsome : (allCells.find? p).isSome := List.find?_isSome.mpr ⟨a, hmem, hpa⟩
    rcases hb : allCells.find? p with _ | b
    · rw [hb] at hsome
      cases hsome
    · rcases List.find?_eq_some.mp hb with ⟨hpb, as, bs, heq, hprefix⟩
      rw [heq] at hmem
      rcases List.mem_append.mp hmem with h1 | h2
      · exact absurd hpa (by simpa using hprefix a h1)
      · rcases List.mem_cons.mp h2 with rfl | h3
        · rfl
        · have hba : cellLt b a := by
            have hpw := allCells_pairwise
            rw [heq] at hpw
            have hsplit := (List.pairwise_append.mp hpw).2.1
            exact (List.pairwise_cons.mp hsplit).1 a h3
          have := hmin b (by rw [heq]; simp) hba
          rw [this] at hpb
          cases hpb

lemma kingCell_oob {b : Board} {color : Color} {y : Int × Int} (h : ¬inB y.1 y.2) :
    kingCell b color y = false := by
  unfold kingCell
  rw [getSq_oob b h]

lemma findKing_eq_some {b : Board} {color : Color} {k : Int × Int} :
    findKing b color = some k ↔
      (inB k.1 k.2 ∧ kingCell b color k = true ∧
        ∀ y, cellLt y k → kingCell b color y = false) := by
  unfold findKing
  rw [find?_allCells_eq_some]
  constructor
  · rintro ⟨h1, h2, h3⟩
    refine ⟨mem_allCells.mp h1, h2, ?_⟩
    intro y hlt
    by_cases hy : inB y.1 y.2
    · exact h3 y (mem_allCells.mpr hy) hlt
    · exact kingCell_oob hy
  · rintro ⟨h1, h2, h3⟩
    exact ⟨mem_allCells.mpr h1, h2, fun y _ hlt => h3 y hlt⟩

lemma findKing_isSome_of_kingCell {b : Board} {color : Color} {q : Int × Int}
    (hq : kingCell b color q = true) : ∃ k, findKing b color = some k := by
  have hin : inB q.1 q.2 := by
    by_contra h
    rw [kingCell_oob h] at hq
    cases hq
  have : (allCells.find? (kingCell b color)).isSome :=
    List.find?_isSome.mpr ⟨q, mem_allCells.mpr hin, hq⟩
  unfold findKing
  rcases h : allCells.find? (kingCell b color) with _ | k
  · rw [h] at this
    cases this
  · exact ⟨k, rfl⟩


/- Ray walks: membership characterisation of `rayGo`/`rayCells`. -/

lemma boolIf_eq_true {P : Prop} [Decidable P] : ((if P then true else false) = true) ↔ P := by
  split_ifs with h <;> simp [h]

lemma rayGo_elim {b : Board} {dr dc : Int} :
    ∀ (fuel : Nat) (r c : Int) (x : Int × Int), x ∈ rayGo b dr dc fuel r c →
      ∃ j : Nat, j < fuel ∧ x = (r + dr * j, c + dc * j) ∧
        (∀ i : Nat, i < j → getSq b (r + dr * i) (c + dc * i) = none) ∧ inB x.1 x.2 := by
  intro fuel
  induction fuel with
  | zero =>
    intro r c x hx
    cases hx
  | succ n ih =>
    intro r c x hx
    unfold rayGo at hx
    split at hx
    · rcases List.mem_cons.mp hx with rfl | hx2
      · exact ⟨0, by omega, by simp, by omega, by simpa using ‹inB r c›⟩
      · split at hx2
        · cases hx2
        · obtain ⟨j, hj, hx3, hemp, hinx⟩ := ih (r + dr) (c + dc) x hx2
          refine ⟨j + 1, by omega, ?_, ?_, hinx⟩
          · rw [hx3]
            simp only [Prod.mk.injEq]
            constructor <;> (push_cast ; ring)
          · intro i hi
            cases i with
            | zero =>
              simpa using Option.not_isSome_iff_eq_none.mp (by simpa using ‹¬(getSq b r c).isSome = true›)
            | succ m =>
              have heq : (r + dr) + dr * (m : Int) = r + dr * ((m + 1 : Nat) : Int) := by
                push_cast
                ring
              have heq2 : (c + dc) + dc * (m : Int) = c + dc * ((m + 1 : Nat) : Int) := by
                push_cast
                ring
              rw [← heq, ← heq2]
              exact hemp m (by omega)
    · cases hx

lemma rayGo_intro {b : Board} {dr dc : Int} :
    ∀ (fuel : Nat) (r c : Int) (j : Nat), j < fuel →
      (∀ i : Nat, i ≤ j → inB (r + dr * i) (c + dc * i)) →
      (∀ i : Nat, i < j → getSq b (r + dr * i) (c + dc * i) = none) →
      (r + dr * j, c + dc * j) ∈ rayGo b dr dc fuel r c := by
  intro fuel
  induction fuel with
  | zero =>
    intro r c j hj _ _
    omega
  | succ n ih =>
    intro r c j hj hin hemp
    unfold rayGo
    rw [if_pos (by simpa using hin 0 (by omega))]
    cases j with
    | zero =>
      simp
    | succ m =>
      have h0 : getSq b r c = none := by simpa using hemp 0 (by omega)
      rw [h0]
      simp only [Option.isSome_none, Bool.false_eq_true, if_false]
      apply List.mem_cons_of_mem
      have heq : ∀ i : Nat, ((r + dr) + dr * (i : Int), (c + dc) + dc * (i : Int))
          = (r + dr * ((i + 1 : Nat) : Int), c + dc * ((i + 1 : Nat) : Int)) := by
        intro i
        simp only [Prod.mk.injEq]
        constructor <;> (push_cast ; ring)
      rw [show (r + dr * ((m + 1 : Nat) : Int), c + dc * ((m + 1 : Nat) : Int))
          = ((r + dr) + dr * (m : Int), (c + dc) + dc * (m : Int)) from (heq m).symm]
      apply ih (r + dr) (c + dc) m (by omega)
      · intro i hi
        have := hin (i + 1) (by omega)
        rw [show ((r + dr) + dr * (i : Int)) = r + dr * ((i + 1 : Nat) : Int) from by push_cast ; ring,
          show ((c + dc) + dc * (i : Int)) = c + dc * ((i + 1 : Nat) : Int) from by push_cast ; ring]
        exact this
      · intro i hi
        have := hemp (i + 1) (by omega)
        rw [show ((r + dr) + dr * (i : Int)) = r + dr * ((i + 1 : Nat) : Int) from by push_cast ; ring,
          show ((c + dc) + dc * (i : Int)) = c + dc * ((i + 1 : Nat) : Int) from by push_cast ; ring]
        exact this

lemma rayCells_elim {b : Board} {pr pc dr dc : Int} {x : Int × Int}
    (h : x ∈ rayCells b pr pc dr dc) :
    ∃ k : Nat, 1 ≤ k ∧ x = (pr + dr * k, pc + dc * k) ∧
      (∀ i : Nat, 1 ≤ i → i < k → getSq b (pr + dr * i) (pc + dc * i) = none) ∧ inB x.1 x.2 := by
  obtain ⟨j, hj, hx, hemp, hinx⟩ := rayGo_elim 8 (pr + dr) (pc + dc) x h
  refine ⟨j + 1, by omega, ?_, ?_, hinx⟩
  · rw [hx]
    simp only [Prod.mk.injEq]
    constructor <;> (push_cast ; ring)
  · intro i h1 h2
    have := hemp (i - 1) (by omega)
    rw [show ((pr + dr) + dr * ((i - 1 : Nat) : Int)) = pr + dr * (i : Int) from by
        have : ((i - 1 : Nat) : Int) = (i : Int) - 1 := by omega
        rw [this] ; ring,
      show ((pc + dc) + dc * ((i - 1 : Nat) : Int)) = pc + dc * (i : Int) from by
        have : ((i - 1 : Nat) : Int) = (i : Int) - 1 := by omega
        rw [this] ; ring] at this
    exact this

lemma rayCells_intro {b : Board} {pr pc dr dc : Int} {k : Nat} (hk : 1 ≤ k) (hk8 : k ≤ 8)
    (hin : ∀ i : Nat, 1 ≤ i → i ≤ k → inB (pr + dr * i) (pc + dc * i))
    (hemp : ∀ i : Nat, 1 ≤ i → i < k → getSq b (pr + dr * i) (pc + dc * i) = none) :
    (pr + dr * k, pc + dc * k) ∈ rayCells b pr pc dr dc := by
  unfold rayCells
  have hmain := rayGo_intro 8 (pr + dr) (pc + dc) (k - 1) (by omega)
    (by
      intro i hi
      have := hin (i + 1) (by omega) (by omega)
      rw [show ((pr + dr) + dr * (i : Int)) = pr + dr * ((i + 1 : Nat) : Int) from by push_cast ; ring,
        show ((pc + dc) + dc * (i : Int)) = pc + dc * ((i + 1 : Nat) : Int) from by push_cast ; ring]
      exact this)
    (by
      intro i hi
      have := hemp (i + 1) (by omega) (by omega)
      rw [show ((pr + dr) + dr * (i : Int)) = pr + dr * ((i + 1 : Nat) : Int) from by push_cast ; ring,
        show ((pc + dc) + dc * (i : Int)) = pc + dc * ((i + 1 : Nat) : Int) from by push_cast ; ring]
      exact this)
  rw [show ((pr + dr) + dr * ((k - 1 : Nat) : Int)) = pr + dr * (k : Int) from by
      have : ((k - 1 : Nat) : Int) = (k : Int) - 1 := by omega
      rw [this] ; ring,
    show ((pc + dc) + dc * ((k - 1 : Nat) : Int)) = pc + dc * (k : Int) from by
      have : ((k - 1 : Nat) : Int) = (k : Int) - 1 := by omega
      rw [this] ; ring] at hmain
  exact hmain


/- Normal-form characterisations of the sliding-attack predicates. -/

lemma isPathClear_iff_nf (b : Board) (fr fc : Int) {d : Int × Int} {k : Nat}
    (hud : unitDir d) (hk : 1 ≤ k) :
    isPathClear b fr fc (fr + d.1 * k) (fc + d.2 * k) = true ↔
      ∀ j : Nat, 1 ≤ j → j < k → getSq b (fr + d.1 * j) (fc + d.2 * j) = none := by
  obtain ⟨d1, d2⟩ := d
  obtain ⟨hd1, hd2, hnz⟩ := hud
  simp only at hd1 hd2 hnz ⊢
  have main : ∀ D1 D2 : Int, D1 = d1 → D2 = d2 →
      stepDir fr (fr + d1 * (k : Int)) = D1 → stepDir fc (fc + d2 * (k : Int)) = D2 →
      max ((fr + d1 * (k : Int)) - fr).natAbs ((fc + d2 * (k : Int)) - fc).natAbs = k →
      (isPathClear b fr fc (fr + d1 * (k : Int)) (fc + d2 * (k : Int)) = true ↔
        ∀ j : Nat, 1 ≤ j → j < k → getSq b (fr + d1 * j) (fc + d2 * j) = none) := by
    rintro D1 D2 rfl rfl hrs hcs hmax
    simp only [isPathClear, hrs, hcs, hmax, List.all_eq_true]
    constructor
    · intro H j h1 h2
      have := H (j - 1) (List.mem_range.mpr (by omega))
      rw [show ((j - 1 : Nat) : Int) + 1 = (j : Int) from by omega] at this
      exact Option.not_isSome_iff_eq_none.mp (by simp [this])
    · intro H i hi
      have hlt : i + 1 < k := by
        have := List.mem_range.mp hi
        omega
      have := H (i + 1) (by omega) hlt
      rw [show ((i + 1 : Nat) : Int) = (i : Int) + 1 from by push_cast ; ring] at this
      simp [this]
  rcases hd1 with rfl | rfl | rfl <;> rcases hd2 with rfl | rfl | rfl
  all_goals try (exfalso ; omega)
  all_goals
    exact main _ _ rfl rfl (by unfold stepDir ; split_ifs <;> omega)
      (by unfold stepDir ; split_ifs <;> omega) (by omega)


lemma rookDirs_unit : ∀ d ∈ rookDirs, unitDir d := by decide

lemma bishopDirs_unit : ∀ d ∈ bishopDirs, unitDir d := by decide

lemma slideMarks_iff_nf {b : Board} {dirs : List (Int × Int)} {pr pc r c : Int}
    (hdirs : ∀ d ∈ dirs, unitDir d) (hin1 : inB pr pc) (hin2 : inB r c) :
    slideMarks b dirs pr pc r c = true ↔ sliderNF b dirs pr pc r c := by
  unfold slideMarks sliderNF
  rw [boolIf_eq_true]
  constructor
  · rintro ⟨d, hd, hmem⟩
    obtain ⟨k, hk, hx, hemp, -⟩ := rayCells_elim hmem
    rw [Prod.mk.injEq] at hx
    exact ⟨d, hd, k, hk, hx.1, hx.2, hemp⟩
  · rintro ⟨d, hd, k, hk, hr, hc, hemp⟩
    obtain ⟨hd1, hd2, hnz⟩ := hdirs d hd
    refine ⟨d, hd, ?_⟩
    rw [hr, hc]
    obtain ⟨e1, e2, e3, e4⟩ := hin1
    obtain ⟨f1, f2, f3, f4⟩ := hin2
    obtain ⟨d1, d2⟩ := d
    simp only at hd1 hd2 hnz hr hc ⊢
    rcases hd1 with rfl | rfl | rfl <;> rcases hd2 with rfl | rfl | rfl
    all_goals try (exfalso ; omega)
    all_goals
      exact rayCells_intro hk (by omega)
        (fun i h1 h2 => ⟨by omega, by omega, by omega, by omega⟩)
        hemp

lemma canRook_iff_nf {b : Board} {pr pc r c : Int} (hne : ¬(pr = r ∧ pc = c)) :
    canRookAttackSquare b pr pc r c = true ↔ sliderNF b rookDirs pr pc r c := by
  unfold canRookAttackSquare sliderNF
  constructor
  · intro h
    split at h
    · rename_i hal
      rcases hal with heq | heq
      · by_cases hlt : pc < c
        · refine ⟨(0, 1), by decide, (c - pc).toNat, by omega, by simp ; omega, by simp ; omega, ?_⟩
          have := (isPathClear_iff_nf b pr pc (d := ((0 : Int), (1 : Int))) (by decide)
            (k := (c - pc).toNat) (by omega)).mp
          simp only at this
          rw [show pr + 0 * ((c - pc).toNat : Int) = r from by omega,
            show pc + 1 * ((c - pc).toNat : Int) = c from by omega] at this
          simpa using this h
        · refine ⟨(0, -1), by decide, (pc - c).toNat, by omega, by simp ; omega, by simp ; omega, ?_⟩
          have := (isPathClear_iff_nf b pr pc (d := ((0 : Int), (-1 : Int))) (by decide)
            (k := (pc - c).toNat) (by omega)).mp
          simp only at this
          rw [show pr + 0 * ((pc - c).toNat : Int) = r from by omega,
            show pc + -1 * ((pc - c).toNat : Int) = c from by omega] at this
          simpa using this h
      · by_cases hlt : pr < r
        · refine ⟨(1, 0), by decide, (r - pr).toNat, by omega, by simp ; omega, by simp ; omega, ?_⟩
          have := (isPathClear_iff_nf b pr pc (d := ((1 : Int), (0 : Int))) (by decide)
            (k := (r - pr).toNat) (by omega)).mp
          simp only at this
          rw [show pr + 1 * ((r - pr).toNat : Int) = r from by omega,
            show pc + 0 * ((r - pr).toNat : Int) = c from by omega] at this
          simpa using this h
        · refine ⟨(-1, 0), by decide, (pr - r).toNat, by omega, by simp ; omega, by simp ; omega, ?_⟩
          have := (isPathClear_iff_nf b pr pc (d := ((-1 : Int), (0 : Int))) (by decide)
            (k := (pr - r).toNat) (by omega)).mp
          simp only at this
          rw [show pr + -1 * ((pr - r).toNat : Int) = r from by omega,
            show pc + 0 * ((pr - r).toNat : Int) = c from by omega] at this
          simpa using this h
    · cases h
  · rintro ⟨d, hd, k, hk, hr, hc, hemp⟩
    have hpath := (isPathClear_iff_nf b pr pc (rookDirs_unit d hd) hk).mpr hemp
    rw [← hr, ← hc] at hpath
    fin_cases hd <;> simp only at hr hc <;>
      (rw [if_pos (by omega)] ; exact hpath)

lemma canBishop_iff_nf {b : Board} {pr pc r c : Int} (hne : ¬(pr = r ∧ pc = c)) :
    canBishopAttackSquare b pr pc r c = true ↔ sliderNF b bishopDirs pr pc r c := by
  unfold canBishopAttackSquare sliderNF
  constructor
  · intro h
    split at h
    · rename_i hal
      by_cases h1 : pr < r <;> by_cases h2 : pc < c
      · refine ⟨(1, 1), by decide, (r - pr).toNat, by omega, by simp ; omega, by simp ; omega, ?_⟩
        have := (isPathClear_iff_nf b pr pc (d := ((1 : Int), (1 : Int))) (by decide)
          (k := (r - pr).toNat) (by omega)).mp
        simp only at this
        rw [show pr + 1 * ((r - pr).toNat : Int) = r from by omega,
          show pc + 1 * ((r - pr).toNat : Int) = c from by omega] at this
        simpa using this h
      · refine ⟨(1, -1), by decide, (r - pr).toNat, by omega, by simp ; omega, by simp ; omega, ?_⟩
        have := (isPathClear_iff_nf b pr pc (d := ((1 : Int), (-1 : Int))) (by decide)
          (k := (r - pr).toNat) (by omega)).mp
        simp only at this
        rw [show pr + 1 * ((r - pr).toNat : Int) = r from by omega,
          show pc + -1 * ((r - pr).toNat : Int) = c from by omega] at this
        simpa using this h
      · refine ⟨(-1, 1), by decide, (pr - r).toNat, by omega, by simp ; omega, by simp ; omega, ?_⟩
        have := (isPathClear_iff_nf b pr pc (d := ((-1 : Int), (1 : Int))) (by decide)
          (k := (pr - r).toNat) (by omega)).mp
        simp only at this
        rw [show pr + -1 * ((pr - r).toNat : Int) = r from by omega,
          show pc + 1 * ((pr - r).toNat : Int) = c from by omega] at this
        simpa using this h
      · refine ⟨(-1, -1), by decide, (pr - r).toNat, by omega, by simp ; omega, by simp ; omega, ?_⟩
        have := (isPathClear_iff_nf b pr pc (d := ((-1 : Int), (-1 : Int))) (by decide)
          (k := (pr - r).toNat) (by omega)).mp
        simp only at this
        rw [show pr + -1 * ((pr - r).toNat : Int) = r from by omega,
          show pc + -1 * ((pr - r).toNat : Int) = c from by omega] at this
        simpa using this h
    · cases h
  · rintro ⟨d, hd, k, hk, hr, hc, hemp⟩
    have hpath := (isPathClear_iff_nf b pr pc (bishopDirs_unit d hd) hk).mpr hemp
    rw [← hr, ← hc] at hpath
    fin_cases hd <;> simp only at hr hc <;>
      (rw [if_pos (by omega)] ; exact hpath)

lemma canQueen_eq_or {b : Board} {pr pc r c : Int} :
    canQueenAttackSquare b pr pc r c
      = (canRookAttackSquare b pr pc r c || canBishopAttackSquare b pr pc r c) := by
  unfold canQueenAttackSquare canRookAttackSquare canBishopAttackSquare
  split_ifs <;> simp_all


lemma slideMarks_self {b : Board} {dirs : List (Int × Int)} {pr pc : Int}
    (hdirs : ∀ d ∈ dirs, unitDir d) : slideMarks b dirs pr pc pr pc = false := by
  have hP : ¬∃ d ∈ dirs, (pr, pc) ∈ rayCells b pr pc d.1 d.2 := by
    rintro ⟨d, hd, hmem⟩
    obtain ⟨k, hk, hx, -, -⟩ := rayCells_elim hmem
    rw [Prod.mk.injEq] at hx
    obtain ⟨hd1, hd2, hnz⟩ := hdirs d hd
    obtain ⟨d1, d2⟩ := d
    simp only at hd1 hd2 hnz hx
    rcases hd1 with rfl | rfl | rfl <;> rcases hd2 with rfl | rfl | rfl <;> omega
  unfold slideMarks
  rw [if_neg hP]

lemma pawnMarks_eq_can {p : ChessPiece} {pr pc r c : Int} (h2 : inB r c) :
    pawnMarks p pr pc r c = canPawnAttackSquare p pr pc r c := by
  obtain ⟨i1, i2, i3, i4⟩ := h2
  unfold pawnMarks canPawnAttackSquare
  rw [Bool.eq_iff_iff, boolIf_eq_true, boolIf_eq_true]
  cases p.color <;> simp only [pieceDirection, inB] <;> omega

lemma knightMarks_eq_can {pr pc r c : Int} (h2 : inB r c) :
    knightMarks pr pc r c = canKnightAttackSquare pr pc r c := by
  obtain ⟨i1, i2, i3, i4⟩ := h2
  unfold knightMarks canKnightAttackSquare
  rw [Bool.eq_iff_iff, boolIf_eq_true, boolIf_eq_true]
  constructor
  · rintro ⟨hmem, -⟩
    simp only [knightOffsets, List.mem_map, List.mem_cons, List.not_mem_nil, or_false] at hmem
    obtain ⟨o, ho, heq⟩ := hmem
    rw [Prod.mk.injEq] at heq
    rcases ho with rfl | rfl | rfl | rfl | rfl | rfl | rfl | rfl <;> simp only at heq <;> omega
  · intro h
    refine ⟨?_, i1, i2, i3, i4⟩
    simp only [knightOffsets, List.mem_map, List.mem_cons, List.not_mem_nil, or_false]
    refine ⟨(r - pr, c - pc), ?_, by simp⟩
    simp only [Prod.mk.injEq]
    omega

lemma kingMarks_eq_can {pr pc r c : Int} (h2 : inB r c) (hne : ¬(pr = r ∧ pc = c)) :
    kingMarks pr pc r c = canKingAttackSquare pr pc r c := by
  obtain ⟨i1, i2, i3, i4⟩ := h2
  unfold kingMarks canKingAttackSquare
  rw [Bool.eq_iff_iff, boolIf_eq_true, boolIf_eq_true]
  constructor
  · rintro ⟨hmem, -⟩
    simp only [kingAdjOffsets, List.mem_map, List.mem_cons, List.not_mem_nil, or_false] at hmem
    obtain ⟨o, ho, heq⟩ := hmem
    rw [Prod.mk.injEq] at heq
    rcases ho with rfl | rfl | rfl | rfl | rfl | rfl | rfl | rfl <;> simp only at heq <;> omega
  · intro h
    refine ⟨?_, i1, i2, i3, i4⟩
    simp only [kingAdjOffsets, List.mem_map, List.mem_cons, List.not_mem_nil, or_false]
    refine ⟨(r - pr, c - pc), ?_, by simp⟩
    simp only [Prod.mk.injEq]
    omega

lemma knightMarks_self {pr pc : Int} : knightMarks pr pc pr pc = false := by
  unfold knightMarks
  rw [if_neg]
  rintro ⟨hmem, -⟩
  simp only [knightOffsets, List.mem_map, List.mem_cons, List.not_mem_nil, or_false] at hmem
  obtain ⟨o, ho, heq⟩ := hmem
  rw [Prod.mk.injEq] at heq
  rcases ho with rfl | rfl | rfl | rfl | rfl | rfl | rfl | rfl <;> simp only at heq <;> omega

lemma kingMarks_self {pr pc : Int} : kingMarks pr pc pr pc = false := by
  unfold kingMarks
  rw [if_neg]
  rintro ⟨hmem, -⟩
  simp only [kingAdjOffsets, List.mem_map, List.mem_cons, List.not_mem_nil, or_false] at hmem
  obtain ⟨o, ho, heq⟩ := hmem
  rw [Prod.mk.injEq] at heq
  rcases ho with rfl | rfl | rfl | rfl | rfl | rfl | rfl | rfl <;> simp only at heq <;> omega

lemma pawnMarks_self {p : ChessPiece} {pr pc : Int} : pawnMarks p pr pc pr pc = false := by
  unfold pawnMarks
  cases p.color <;> (simp only [pieceDirection] ; rw [if_neg] ; simp only [inB] ; omega)

/-- The attack-map marking pass and the per-piece attack predicate used by
`isKingInCheck` agree on every on-board source and target square. -/
lemma attacksCell_eq_can {b : Board} {p : ChessPiece} {pr pc r c : Int}
    (h1 : inB pr pc) (h2 : inB r c) :
    attacksCell b p pr pc r c = canPieceAttackSquare b p pr pc r c := by
  unfold attacksCell canPieceAttackSquare
  by_cases hsame : pr = r ∧ pc = c
  · rw [if_pos hsame]
    obtain ⟨rfl, rfl⟩ := hsame
    cases p.type
    · exact pawnMarks_self
    · exact slideMarks_self rookDirs_unit
    · exact knightMarks_self
    · exact slideMarks_self bishopDirs_unit
    · rw [slideMarks_self rookDirs_unit, slideMarks_self bishopDirs_unit]
      rfl
    · exact kingMarks_self
  · rw [if_neg hsame]
    cases p.type
    · exact pawnMarks_eq_can h2
    · rw [Bool.eq_iff_iff, slideMarks_iff_nf rookDirs_unit h1 h2, canRook_iff_nf hsame]
    · exact knightMarks_eq_can h2
    · rw [Bool.eq_iff_iff, slideMarks_iff_nf bishopDirs_unit h1 h2, canBishop_iff_nf hsame]
    · rw [canQueen_eq_or, Bool.eq_iff_iff, Bool.or_eq_true, Bool.or_eq_true,
        slideMarks_iff_nf rookDirs_unit h1 h2, slideMarks_iff_nf bishopDirs_unit h1 h2,
        canRook_iff_nf hsame, canBishop_iff_nf hsame]
    · exact kingMarks_eq_can h2 hsame


lemma getSq_mem_inB {b : Board} {r c : Int} {p : ChessPiece} (h : getSq b r c = some p) :
    inB r c := by
  by_contra hin
  rw [getSq_oob b hin] at h
  cases h

/-- `getAttackedSquares` marks `(r, c)` exactly when some opposing piece on
the board attacks it in the `canPieceAttackSquare` sense. -/
lemma attacked_iff {b : Board} {color : Color} {r c : Int} (hin : inB r c) :
    getAttackedSquares b color r c = true ↔
      ∃ (q : Int × Int) (pq : ChessPiece), getSq b q.1 q.2 = some pq ∧
        pq.color = oppColor color ∧ canPieceAttackSquare b pq q.1 q.2 r c = true := by
  unfold getAttackedSquares
  rw [List.any_eq_true]
  constructor
  · rintro ⟨q, hq, hval⟩
    rcases hgs : getSq b q.1 q.2 with _ | pq
    · simp [hgs] at hval
    · simp only [hgs] at hval
      split at hval
      · rename_i hcol
        exact ⟨q, pq, hgs, hcol, by
          rw [← attacksCell_eq_can (getSq_mem_inB hgs) hin]
          exact hval⟩
      · cases hval
  · rintro ⟨q, pq, hgs, hcol, hcan⟩
    refine ⟨q, mem_allCells.mpr (getSq_mem_inB hgs), ?_⟩
    simp only [hgs, if_pos hcol]
    rw [attacksCell_eq_can (getSq_mem_inB hgs) hin]
    exact hcan

/-- With the first king located, `isKingInCheck` is exactly the attack map
queried at that king's square. -/
lemma isKingInCheck_eq_attacked {b : Board} {color : Color} {k : Int × Int}
    (hf : findKing b color = some k) :
    isKingInCheck b color = getAttackedSquares b color k.1 k.2 := by
  have hin : inB k.1 k.2 := (findKing_eq_some.mp hf).1
  unfold isKingInCheck
  rw [hf, Bool.eq_iff_iff, List.any_eq_true, attacked_iff hin]
  constructor
  · rintro ⟨q, hq, hval⟩
    rcases hgs : getSq b q.1 q.2 with _ | pq
    · simp [hgs] at hval
    · simp only [hgs] at hval
      split at hval
      · rename_i hcol
        exact ⟨q, pq, hgs, hcol, hval⟩
      · cases hval
  · rintro ⟨q, pq, hgs, hcol, hcan⟩
    refine ⟨q, mem_allCells.mpr (getSq_mem_inB hgs), ?_⟩
    simp only [hgs, if_pos hcol]
    exact hcan

lemma canPieceAttackSquare_board_indep (u v : Board) {p : ChessPiece} {pr pc r c : Int}
    (ht : p.type = .pawn ∨ p.type = .knight ∨ p.type = .king) :
    canPieceAttackSquare u p pr pc r c = canPieceAttackSquare v p pr pc r c := by
  unfold canPieceAttackSquare
  rcases ht with ht | ht | ht <;> rw [ht]

lemma unitDir_cell_inj {d : Int × Int} (hud : unitDir d) {base1 base2 : Int} {i j : Nat}
    (h1 : base1 + d.1 * i = base1 + d.1 * j) (h2 : base2 + d.2 * i = base2 + d.2 * j) :
    i = j := by
  obtain ⟨d1, d2⟩ := d
  obtain ⟨hd1, hd2, hnz⟩ := hud
  simp only at hd1 hd2 hnz h1 h2
  rcases hd1 with rfl | rfl | rfl <;> rcases hd2 with rfl | rfl | rfl <;> omega


/-- Core transfer argument for the castling self-check guard: if neither the
king's starting square `(r, fc)` nor the square `t` is attacked on the
original board, and `t` holds a piece of the king's own side on the
simulated board, then `t` is not attacked on the simulated board either —
any newly opened sliding ray must pass through the vacated square `(r, fc)`,
and its attacker already attacked `(r, fc)` on the original board. -/
lemma sim_attack_transfer {b : Board} {p : ChessPiece} {r fc tc : Int} {t : Int × Int}
    (hinf : inB r fc) (hintc : inB r tc) (hne : fc ≠ tc)
    (h4atk : getAttackedSquares b p.color r fc = false)
    (htatk : getAttackedSquares b p.color t.1 t.2 = false)
    (hint : inB t.1 t.2)
    (hsimt : ∃ kp, getSq (simulateMove b r fc r tc p) t.1 t.2 = some kp ∧ kp.color = p.color) :
    getAttackedSquares (simulateMove b r fc r tc p) p.color t.1 t.2 = false := by
  by_contra hT
  rw [Bool.not_eq_false] at hT
  obtain ⟨q, pq, hq, hqcol, hqcan⟩ := (attacked_iff hint).mp hT
  have hsim4 : getSq (simulateMove b r fc r tc p) r fc = none := by
    unfold simulateMove
    exact getSq_setSq_self _ _ hinf
  have hsimtc : getSq (simulateMove b r fc r tc p) r tc
      = some { p with row := r, col := tc } := by
    unfold simulateMove
    rw [getSq_setSq_ne _ _ (by omega : ¬(r = r ∧ tc = fc))]
    exact getSq_setSq_self _ _ hintc
  have hoppne : oppColor p.color ≠ p.color := by
    cases p.color <;> simp [oppColor]
  have hq4 : ¬(q.1 = r ∧ q.2 = fc) := by
    rintro ⟨h1, h2⟩
    rw [h1, h2, hsim4] at hq
    cases hq
  have hqtc : ¬(q.1 = r ∧ q.2 = tc) := by
    rintro ⟨h1, h2⟩
    rw [h1, h2, hsimtc] at hq
    injection hq with hq2
    rw [← hq2] at hqcol
    simp only at hqcol
    exact absurd (hqcol.symm) (by cases p.color <;> simp [oppColor])
  have hqb : getSq b q.1 q.2 = some pq := by
    unfold simulateMove at hq
    rw [getSq_setSq_ne _ _ hq4, getSq_setSq_ne _ _ hqtc] at hq
    exact hq
  have hqnet : ¬(q.1 = t.1 ∧ q.2 = t.2) := by
    rintro ⟨h1, h2⟩
    obtain ⟨kp, hkp, hkpc⟩ := hsimt
    rw [h1, h2, hkp] at hq
    injection hq with hq2
    rw [← hq2] at hqcol
    rw [hkpc] at hqcol
    exact absurd hqcol.symm hoppne
  by_cases htp : pq.type = .pawn ∨ pq.type = .knight ∨ pq.type = .king
  · have hcanb : canPieceAttackSquare b pq q.1 q.2 t.1 t.2 = true := by
      rw [canPieceAttackSquare_board_indep b (simulateMove b r fc r tc p) htp]
      exact hqcan
    have : getAttackedSquares b p.color t.1 t.2 = true :=
      (attacked_iff hint).mpr ⟨q, pq, hqb, hqcol, hcanb⟩
    rw [htatk] at this
    cases this
  · push_neg at htp
    obtain ⟨ht1, ht2, ht3⟩ := htp
    have main : ∀ dirs : List (Int × Int), (∀ d ∈ dirs, unitDir d) →
        (∀ (u : Board) (x y : Int), sliderNF u dirs q.1 q.2 x y → ¬(q.1 = x ∧ q.2 = y) →
          canPieceAttackSquare u pq q.1 q.2 x y = true) →
        sliderNF (simulateMove b r fc r tc p) dirs q.1 q.2 t.1 t.2 → False := by
      intro dirs hdirs hre hnf
      obtain ⟨d, hd, k, hk, hr', hc', hemp⟩ := hnf
      have hcellb : ∀ i : Nat, 1 ≤ i → i < k → ¬(q.1 + d.1 * i = r ∧ q.2 + d.2 * i = fc) →
          getSq b (q.1 + d.1 * i) (q.2 + d.2 * i) = none := by
        intro i hi1 hi2 hi4
        have hse := hemp i hi1 hi2
        have hitc : ¬(q.1 + d.1 * i = r ∧ q.2 + d.2 * i = tc) := by
          rintro ⟨e1, e2⟩
          rw [e1, e2, hsimtc] at hse
          cases hse
        unfold simulateMove at hse
        rw [getSq_setSq_ne _ _ hi4, getSq_setSq_ne _ _ hitc] at hse
        exact hse
      by_cases hcross : ∃ j : Nat, 1 ≤ j ∧ j < k ∧ q.1 + d.1 * j = r ∧ q.2 + d.2 * j = fc
      · obtain ⟨j0, hj1, hj2, hjr, hjc⟩ := hcross
        have hnfb : sliderNF b dirs q.1 q.2 r fc := by
          refine ⟨d, hd, j0, hj1, hjr.symm, hjc.symm, ?_⟩
          intro i hi1 hi2
          refine hcellb i hi1 (by omega) ?_
          rintro ⟨e1, e2⟩
          have : i = j0 := unitDir_cell_inj (hdirs d hd) (e1.trans hjr.symm) (e2.trans hjc.symm)
          omega
        have hcanb := hre b r fc hnfb hq4
        have : getAttackedSquares b p.color r fc = true :=
          (attacked_iff hinf).mpr ⟨q, pq, hqb, hqcol, hcanb⟩
        rw [h4atk] at this
        cases this
      · push_neg at hcross
        have hnfb : sliderNF b dirs q.1 q.2 t.1 t.2 := by
          refine ⟨d, hd, k, hk, hr', hc', ?_⟩
          intro i hi1 hi2
          exact hcellb i hi1 hi2 (fun he => absurd he.2 (hcross i hi1 hi2 he.1))
        have hcanb := hre b t.1 t.2 hnfb hqnet
        have : getAttackedSquares b p.color t.1 t.2 = true :=
          (attacked_iff hint).mpr ⟨q, pq, hqb, hqcol, hcanb⟩
        rw [htatk] at this
        cases this
    cases htty : pq.type with
    | pawn => exact absurd htty ht1
    | knight => exact absurd htty ht2
    | king => exact absurd htty ht3
    | rook =>
      apply main rookDirs rookDirs_unit
      · intro u x y hnf hne2
        unfold canPieceAttackSquare
        rw [if_neg hne2, htty]
        exact (canRook_iff_nf hne2).mpr hnf
      · unfold canPieceAttackSquare at hqcan
        rw [if_neg hqnet, htty] at hqcan
        exact (canRook_iff_nf hqnet).mp hqcan
    | bishop =>
      apply main bishopDirs bishopDirs_unit
      · intro u x y hnf hne2
        unfold canPieceAttackSquare
        rw [if_neg hne2, htty]
        exact (canBishop_iff_nf hne2).mpr hnf
      · unfold canPieceAttackSquare at hqcan
        rw [if_neg hqnet, htty] at hqcan
        exact (canBishop_iff_nf hqnet).mp hqcan
    | queen =>
      unfold canPieceAttackSquare at hqcan
      rw [if_neg hqnet, htty, canQueen_eq_or] at hqcan
      rcases (Bool.or_eq_true _ _).mp hqcan with hq1 | hq1
      · apply main rookDirs rookDirs_unit
        · intro u x y hnf hne2
          unfold canPieceAttackSquare
          rw [if_neg hne2, htty, canQueen_eq_or]
          exact (Bool.or_eq_true _ _).mpr (Or.inl ((canRook_iff_nf hne2).mpr hnf))
        · exact (canRook_iff_nf hqnet).mp hq1
      · apply main bishopDirs bishopDirs_unit
        · intro u x y hnf hne2
          unfold canPieceAttackSquare
          rw [if_neg hne2, htty, canQueen_eq_or]
          exact (Bool.or_eq_true _ _).mpr (Or.inr ((canBishop_iff_nf hne2).mpr hnf))
        · exact (canBishop_iff_nf hqnet).mp hq1


lemma isValidCastling_elim {b : Board} {king : ChessPiece} {fromRow fromCol toCol : Int}
    (h : isValidCastling b king fromRow fromCol toCol = true) :
    isKingInCheck b king.color = false ∧
    rookReadyFor b king fromRow (if toCol > fromCol then 7 else 0) = true ∧
    (∀ x : Int, min fromCol (if toCol > fromCol then (7 : Int) else 0) + 1 ≤ x →
      x ≤ max fromCol (if toCol > fromCol then (7 : Int) else 0) - 1 → getSq b fromRow x = none) ∧
    (∀ x ∈ transitCols fromCol toCol, getAttackedSquares b king.color fromRow x = false) ∧
    getAttackedSquares b king.color fromRow toCol = false := by
  unfold isValidCastling at h
  split at h
  · cases h
  · rename_i hchk
    simp only [Bool.and_eq_true, List.all_eq_true, Bool.not_eq_true'] at h
    obtain ⟨⟨⟨h1, h2⟩, h3⟩, h4⟩ := h
    refine ⟨by simpa using hchk, h1, ?_, h3, h4⟩
    intro x hx1 hx2
    simpa using h2 x (mem_intRange.mpr ⟨hx1, hx2⟩)

lemma isValidCastling_not_check {b : Board} {king : ChessPiece} {fromRow fromCol toCol : Int}
    (h : isValidCastling b king fromRow fromCol toCol = true) :
    isKingInCheck b king.color = false :=
  (isValidCastling_elim h).1

/-- The key soundness fact behind the castling branch of the move
enumerator: when `isValidCastling` accepts a two-square king move from
column 4, simulating the king-only move leaves the mover's side out of
check. -/
lemma castle_sim_no_check {b : Board} {p : ChessPiece} {r tc : Int}
    (htype : p.type = .king)
    (hp : getSq b r 4 = some p)
    (htc : tc = 2 ∨ tc = 6)
    (hC : isValidCastling b p r 4 tc = true) :
    isKingInCheck (simulateMove b r 4 r tc p) p.color = false := by
  obtain ⟨hnc, hrook, hbet, htrans, hend⟩ := isValidCastling_elim hC
  have hinp : inB r 4 := getSq_mem_inB hp
  have hintc : inB r tc := by
    rcases htc with rfl | rfl <;> exact ⟨hinp.1, hinp.2.1, by omega, by omega⟩
  have h4atk : getAttackedSquares b p.color r 4 = false := by
    apply htrans
    rcases htc with rfl | rfl
    · unfold transitCols
      rw [if_neg (by omega : ¬((2 : Int) > 4))]
      exact mem_intRange.mpr ⟨by omega, by omega⟩
    · unfold transitCols
      rw [if_pos (by omega : (6 : Int) > 4)]
      exact mem_intRange.mpr ⟨by omega, by omega⟩
  have hbet2 : ∀ x : Int, ((tc = 2 ∧ 1 ≤ x ∧ x ≤ 3) ∨ (tc = 6 ∧ 5 ≤ x ∧ x ≤ 6)) →
      getSq b r x = none := by
    intro x hx
    rcases hx with ⟨rfl, hx1, hx2⟩ | ⟨rfl, hx1, hx2⟩
    · have := hbet x
      rw [if_neg (by omega : ¬((2 : Int) > 4)), show ((4 : Int) ⊓ 0) = 0 from by norm_num,
        show ((4 : Int) ⊔ 0) = 4 from by norm_num] at this
      exact this (by omega) (by omega)
    · have := hbet x
      rw [if_pos (by omega : (6 : Int) > 4), show ((4 : Int) ⊓ 7) = 4 from by norm_num,
        show ((4 : Int) ⊔ 7) = 7 from by norm_num] at this
      exact this (by omega) (by omega)
  have hkc4 : kingCell b p.color (r, 4) = true := by
    unfold kingCell
    simp only [hp, htype]
    simp
  have hsimAt4 : getSq (simulateMove b r 4 r tc p) r 4 = none := by
    unfold simulateMove
    exact getSq_setSq_self _ _ hinp
  have hsimAtTc : getSq (simulateMove b r 4 r tc p) r tc
      = some { p with row := r, col := tc } := by
    unfold simulateMove
    rw [getSq_setSq_ne _ _ (by rcases htc with rfl | rfl <;> omega : ¬(r = r ∧ tc = (4 : Int)))]
    exact getSq_setSq_self _ _ hintc
  have hsimOther : ∀ x y : Int, ¬(x = r ∧ y = 4) → ¬(x = r ∧ y = tc) →
      getSq (simulateMove b r 4 r tc p) x y = getSq b x y := by
    intro x y hxy1 hxy2
    unfold simulateMove
    rw [getSq_setSq_ne _ _ hxy1, getSq_setSq_ne _ _ hxy2]
  obtain ⟨k0, hk0⟩ := findKing_isSome_of_kingCell hkc4
  obtain ⟨hk0in, hk0king, hk0min⟩ := findKing_eq_some.mp hk0
  have hk0le : k0 = (r, 4) ∨ cellLt k0 (r, 4) := by
    by_contra hcon
    push_neg at hcon
    obtain ⟨hne1, hne2⟩ := hcon
    have hlt : cellLt (r, 4) k0 := by
      obtain ⟨q1, q2⟩ := k0
      have : ¬((q1, q2) : Int × Int) = (r, 4) → q1 ≠ r ∨ q2 ≠ 4 := by
        intro hn
        by_contra hcc
        push_neg at hcc
        exact hn (by rw [hcc.1, hcc.2])
      have hor := this hne1
      unfold cellLt at hne2 ⊢
      simp only at hne2 ⊢
      omega
    exact absurd hkc4 (by rw [hk0min (r, 4) hlt] ; simp)
  have hk0atk : getAttackedSquares b p.color k0.1 k0.2 = false := by
    have := isKingInCheck_eq_attacked hk0
    rw [hnc] at this
    exact this.symm
  rcases hk0le with heq | hlt
  · subst heq
    have hfs : findKing (simulateMove b r 4 r tc p) p.color = some (r, tc) := by
      rw [findKing_eq_some]
      refine ⟨hintc, ?_, ?_⟩
      · unfold kingCell
        simp only [hsimAtTc, htype]
        simp
      · intro y hy
        by_cases hy4 : y = (r, 4)
        · subst hy4
          unfold kingCell
          simp [hsimAt4]
        · by_cases hytc : y = (r, tc)
          · subst hytc
            exact absurd hy (cellLt_irrefl _)
          · have hyne4 : ¬(y.1 = r ∧ y.2 = 4) := by
              rintro ⟨e1, e2⟩
              exact hy4 (Prod.ext e1 e2)
            have hynetc : ¬(y.1 = r ∧ y.2 = tc) := by
              rintro ⟨e1, e2⟩
              exact hytc (Prod.ext e1 e2)
            have hyv := hsimOther y.1 y.2 hyne4 hynetc
            unfold kingCell
            rw [hyv]
            rcases htc with rfl | rfl
            · have hlt2 : cellLt y (r, 4) := by
                obtain ⟨y1, y2⟩ := y
                unfold cellLt at hy ⊢
                simp only at hy ⊢
                omega
              have := hk0min y hlt2
              unfold kingCell at this
              exact this
            · by_cases hy5 : y = (r, 5)
              · subst hy5
                rw [hbet2 5 (Or.inr ⟨rfl, by omega, by omega⟩)]
              · have hlt2 : cellLt y (r, 4) := by
                  obtain ⟨y1, y2⟩ := y
                  have : ¬((y1, y2) : Int × Int) = (r, 5) → y1 ≠ r ∨ y2 ≠ 5 := by
                    intro hn
                    by_contra hcc
                    push_neg at hcc
                    exact hn (by rw [hcc.1, hcc.2])
                  have hor := this hy5
                  have : ¬((y1, y2) : Int × Int) = (r, 4) → y1 ≠ r ∨ y2 ≠ 4 := by
                    intro hn
                    by_contra hcc
                    push_neg at hcc
                    exact hn (by rw [hcc.1, hcc.2])
                  have hor2 := this hy4
                  unfold cellLt at hy ⊢
                  simp only at hy ⊢
                  omega
                have := hk0min y hlt2
                unfold kingCell at this
                exact this
    rw [isKingInCheck_eq_attacked hfs]
    exact sim_attack_transfer hinp hintc (by rcases htc with rfl | rfl <;> omega) h4atk hend
      hintc ⟨{ p with row := r, col := tc }, hsimAtTc, rfl⟩
  · have hk0ne4 : k0 ≠ (r, 4) := fun h => absurd (h ▸ hlt) (cellLt_irrefl _)
    have hk0netc : k0 ≠ (r, tc) := by
      rcases htc with rfl | rfl
      · intro h
        have hb2 := hbet2 2 (Or.inl ⟨rfl, by omega, by omega⟩)
        rw [h] at hk0king
        unfold kingCell at hk0king
        simp [hb2] at hk0king
      · intro h
        rw [h] at hlt
        unfold cellLt at hlt
        simp only at hlt
        omega
    have hk0c1 : ¬(k0.1 = r ∧ k0.2 = 4) := by
      rintro ⟨e1, e2⟩
      exact hk0ne4 (Prod.ext e1 e2)
    have hk0c2 : ¬(k0.1 = r ∧ k0.2 = tc) := by
      rintro ⟨e1, e2⟩
      exact hk0netc (Prod.ext e1 e2)
    have hfs : findKing (simulateMove b r 4 r tc p) p.color = some k0 := by
      rw [findKing_eq_some]
      refine ⟨hk0in, ?_, ?_⟩
      · unfold kingCell at hk0king ⊢
        rw [hsimOther k0.1 k0.2 hk0c1 hk0c2]
        exact hk0king
      · intro y hy
        by_cases hy4 : y = (r, 4)
        · subst hy4
          unfold kingCell
          simp [hsimAt4]
        · by_cases hytc : y = (r, tc)
          · exfalso
            subst hytc
            rcases htc with rfl | rfl
            · have hk03 : k0 = (r, 3) := by
                obtain ⟨q1, q2⟩ := k0
                unfold cellLt at hy hlt
                simp only at hy hlt
                have : q1 = r ∧ q2 = 3 := by omega
                rw [this.1, this.2]
              have hb3 := hbet2 3 (Or.inl ⟨rfl, by omega, by omega⟩)
              rw [hk03] at hk0king
              unfold kingCell at hk0king
              simp [hb3] at hk0king
            · unfold cellLt at hy hlt
              simp only at hy hlt
              omega
          · have hyne4 : ¬(y.1 = r ∧ y.2 = 4) := by
              rintro ⟨e1, e2⟩
              exact hy4 (Prod.ext e1 e2)
            have hynetc : ¬(y.1 = r ∧ y.2 = tc) := by
              rintro ⟨e1, e2⟩
              exact hytc (Prod.ext e1 e2)
            have hyv := hsimOther y.1 y.2 hyne4 hynetc
            unfold kingCell at hk0min ⊢
            rw [hyv]
            have := hk0min y (by
              obtain ⟨y1, y2⟩ := y
              obtain ⟨q1, q2⟩ := k0
              unfold cellLt at hy ⊢
              exact hy)
            exact this
    rw [isKingInCheck_eq_attacked hfs]
    obtain ⟨kp, hkp, hkpc⟩ : ∃ kp, getSq b k0.1 k0.2 = some kp ∧ kp.color = p.color := by
      unfold kingCell at hk0king
      rcases hgk : getSq b k0.1 k0.2 with _ | kp
      · simp [hgk] at hk0king
      · simp only [hgk] at hk0king
        rw [boolIf_eq_true] at hk0king
        exact ⟨kp, rfl, hk0king.2⟩
    exact sim_attack_transfer hinp hintc (by rcases htc with rfl | rfl <;> omega) h4atk hk0atk
      hk0in ⟨kp, by rw [hsimOther k0.1 k0.2 hk0c1 hk0c2] ; exact hkp, hkpc⟩


lemma mem_kingAdjOffsets {o : Int × Int} :
    o ∈ kingAdjOffsets ↔ (o.1.natAbs ≤ 1 ∧ o.2.natAbs ≤ 1 ∧ ¬(o.1 = 0 ∧ o.2 = 0)) := by
  obtain ⟨x, y⟩ := o
  simp only [kingAdjOffsets, List.mem_cons, List.not_mem_nil, or_false, Prod.mk.injEq]
  omega

/-- Membership in the king move enumerator: either an adjacent offset
passing the bounds / friendly / attack-map / self-check filters, or a
castling destination accepted by `isValidCastling` behind the
unmoved-and-not-in-check gate. -/
lemma mem_getKingValidMoves {b : Board} {king : ChessPiece} {row col : Int} {d : Int × Int} :
    d ∈ getKingValidMoves b king row col ↔
      ((∃ o ∈ kingAdjOffsets, d = (row + o.1, col + o.2) ∧ inB d.1 d.2 ∧
          friendlyAt b king d.1 d.2 = false ∧
          getAttackedSquares b king.color d.1 d.2 = false ∧
          isKingInCheck (simulateMove b row col d.1 d.2 king) king.color = false)
        ∨ (king.hasMoved = false ∧ isKingInCheck b king.color = false ∧
            ((isValidCastling b king row col (col + 2) = true ∧ d = (row, col + 2)) ∨
             (isValidCastling b king row col (col - 2) = true ∧ d = (row, col - 2))))) := by
  unfold getKingValidMoves
  rw [List.mem_append, List.mem_filterMap]
  apply or_congr
  · constructor
    · rintro ⟨o, ho, hsome⟩
      simp only [] at hsome
      split at hsome
      · rename_i hcond
        injection hsome with hd
        subst hd
        exact ⟨o, ho, rfl, hcond.1, hcond.2.1, hcond.2.2.1, hcond.2.2.2⟩
      · cases hsome
    · rintro ⟨o, ho, hdeq, h1, h2, h3, h4⟩
      refine ⟨o, ho, ?_⟩
      subst hdeq
      rw [if_pos ⟨h1, h2, h3, h4⟩]
  · by_cases hgate : ¬king.hasMoved ∧ ¬(isKingInCheck b king.color = true)
    · rw [if_pos hgate]
      rw [List.mem_append]
      constructor
      · rintro (hmem | hmem)
        · split at hmem
          · rename_i hcv
            simp only [List.mem_singleton] at hmem
            exact ⟨by simpa using hgate.1, by simpa using hgate.2, Or.inl ⟨hcv, hmem⟩⟩
          · cases hmem
        · split at hmem
          · rename_i hcv
            simp only [List.mem_singleton] at hmem
            exact ⟨by simpa using hgate.1, by simpa using hgate.2, Or.inr ⟨hcv, hmem⟩⟩
          · cases hmem
      · rintro ⟨hm, hchk, (⟨hcv, rfl⟩ | ⟨hcv, rfl⟩)⟩
        · left
          rw [if_pos hcv]
          simp
        · right
          rw [if_pos hcv]
          simp
    · rw [if_neg hgate]
      constructor
      · intro hmem
        cases hmem
      · rintro ⟨hm, hchk, -⟩
        exact absurd ⟨by simp [hm], by simp [hchk]⟩ hgate

/-- The castling test guarantees the king's destination square is empty
(it lies strictly between king and rook). -/
lemma isValidCastling_target_empty {b : Board} {p : ChessPiece} {r tc : Int}
    (htc : tc = 2 ∨ tc = 6) (h : isValidCastling b p r 4 tc = true) : getSq b r tc = none := by
  have hbet := (isValidCastling_elim h).2.2.1
  rcases htc with rfl | rfl
  · have := hbet 2
    rw [if_neg (by omega : ¬((2 : Int) > 4)), show ((4 : Int) ⊓ 0) = 0 from by norm_num,
      show ((4 : Int) ⊔ 0) = 4 from by norm_num] at this
    exact this (by omega) (by omega)
  · have := hbet 6
    rw [if_pos (by omega : (6 : Int) > 4), show ((4 : Int) ⊓ 7) = 4 from by norm_num,
      show ((4 : Int) ⊔ 7) = 7 from by norm_num] at this
    exact this (by omega) (by omega)

lemma isValidMove_no_self_check {b : Board} {p : ChessPiece} {fr fc tr tc : Int}
    (h : isValidMove b p fr fc tr tc = true) :
    isKingInCheck (simulateMove b fr fc tr tc p) p.color = false := by
  unfold isValidMove at h
  split at h
  · cases h
  · split at h
    · cases h
    · split at h
      · cases h
      · simp only [Bool.and_eq_true, Bool.not_eq_true'] at h
        exact h.2

/-- The characterization behind C5/C6: on any board where an unmoved king
sits on its home column 4 (true of every reachable position), the move
enumerator `getValidMoves` returns exactly the destinations accepted by the
legality engine `isValidMove`. -/
lemma getValidMoves_char {b : Board} {p : ChessPiece} {r c : Int}
    (hp : getSq b r c = some p)
    (hk : p.type = PieceType.king → p.hasMoved = false → c = 4)
    (d : Int × Int) :
    d ∈ getValidMoves b p r c ↔ isValidMove b p r c d.1 d.2 = true := by
  have hin : inB r c := getSq_mem_inB hp
  unfold getValidMoves
  by_cases hking : p.type = PieceType.king
  · rw [if_pos hking, mem_getKingValidMoves]
    constructor
    · rintro (⟨o, ho, hdeq, hinB, hfriend, hatk, hsim⟩ | ⟨hmv, hchk, hcast⟩)
      · obtain ⟨ho1, ho2, honz⟩ := mem_kingAdjOffsets.mp ho
        have hd1 : d.1 = r + o.1 := by rw [hdeq]
        have hd2 : d.2 = c + o.2 := by rw [hdeq]
        obtain ⟨hb1, hb2, hb3, hb4⟩ := hinB
        unfold isValidMove
        rw [if_neg (show ¬(r = d.1 ∧ c = d.2) by omega)]
        rw [if_neg (show ¬(d.1 < 0 ∨ d.1 > 7 ∨ d.2 < 0 ∨ d.2 > 7) by omega)]
        rw [if_neg (show ¬(friendlyAt b p d.1 d.2 = true) by simp [hfriend])]
        simp only [hking]
        rw [Bool.and_eq_true]
        refine ⟨?_, by simp [hsim]⟩
        unfold isValidKingMove
        rw [if_pos (show (d.1 - r).natAbs ≤ 1 ∧ (d.2 - c).natAbs ≤ 1 by omega)]
        simp [hfriend, hatk, hsim]
      · have hc4 : c = 4 := hk hking (by simpa using hmv)
        subst hc4
        rcases hcast with ⟨hcv, hdeq⟩ | ⟨hcv, hdeq⟩
        · norm_num at hcv hdeq
          have hd1 : d.1 = r := by rw [hdeq]
          have hd2 : d.2 = (6 : Int) := by rw [hdeq]
          have htgt : getSq b r (6 : Int) = none :=
            isValidCastling_target_empty (by norm_num) hcv
          have hsim : isKingInCheck (simulateMove b r 4 r 6 p) p.color = false :=
            castle_sim_no_check hking hp (by norm_num) hcv
          unfold isValidMove
          rw [if_neg (show ¬(r = d.1 ∧ (4 : Int) = d.2) by omega)]
          rw [if_neg (show ¬(d.1 < 0 ∨ d.1 > 7 ∨ d.2 < 0 ∨ d.2 > 7) by
            obtain ⟨a1, a2, a3, a4⟩ := hin ; omega)]
          rw [if_neg (show ¬(friendlyAt b p d.1 d.2 = true) by
            rw [hd1, hd2] ; simp [friendlyAt, htgt])]
          simp only [hking]
          rw [Bool.and_eq_true]
          refine ⟨?_, by rw [hd1, hd2] ; simp [hsim]⟩
          unfold isValidKingMove
          rw [if_neg (show ¬((d.1 - r).natAbs ≤ 1 ∧ (d.2 - 4).natAbs ≤ 1) by omega)]
          rw [if_pos (show (d.1 - r).natAbs = 0 ∧ (d.2 - 4).natAbs = 2 ∧ ¬p.hasMoved by
            refine ⟨by omega, by omega, by simp [hmv]⟩)]
          rw [hd2]
          exact hcv
        · norm_num at hcv hdeq
          have hd1 : d.1 = r := by rw [hdeq]
          have hd2 : d.2 = (2 : Int) := by rw [hdeq]
          have htgt : getSq b r (2 : Int) = none :=
            isValidCastling_target_empty (by norm_num) hcv
          have hsim : isKingInCheck (simulateMove b r 4 r 2 p) p.color = false :=
            castle_sim_no_check hking hp (by norm_num) hcv
          unfold isValidMove
          rw [if_neg (show ¬(r = d.1 ∧ (4 : Int) = d.2) by omega)]
          rw [if_neg (show ¬(d.1 < 0 ∨ d.1 > 7 ∨ d.2 < 0 ∨ d.2 > 7) by
            obtain ⟨a1, a2, a3, a4⟩ := hin ; omega)]
          rw [if_neg (show ¬(friendlyAt b p d.1 d.2 = true) by
            rw [hd1, hd2] ; simp [friendlyAt, htgt])]
          simp only [hking]
          rw [Bool.and_eq_true]
          refine ⟨?_, by rw [hd1, hd2] ; simp [hsim]⟩
          unfold isValidKingMove
          rw [if_neg (show ¬((d.1 - r).natAbs ≤ 1 ∧ (d.2 - 4).natAbs ≤ 1) by omega)]
          rw [if_pos (show (d.1 - r).natAbs = 0 ∧ (d.2 - 4).natAbs = 2 ∧ ¬p.hasMoved by
            refine ⟨by omega, by omega, by simp [hmv]⟩)]
          rw [hd2]
          exact hcv
    · intro hval
      have hfacts := isValidMove_facts hval
      obtain ⟨hb1, hb2, hb3, hb4⟩ := hfacts.2
      unfold isValidMove at hval
      split at hval
      · cases hval
      · split at hval
        · cases hval
        · split at hval
          · cases hval
          · rename_i hne hbnd hnf
            simp only [hking, Bool.and_eq_true, Bool.not_eq_true'] at hval
            obtain ⟨hkm, hsim⟩ := hval
            unfold isValidKingMove at hkm
            split at hkm
            · rename_i hadj
              left
              refine ⟨(d.1 - r, d.2 - c), ?_, ?_, ⟨hb1, hb2, hb3, hb4⟩, ?_, ?_, ?_⟩
              · exact mem_kingAdjOffsets.mpr ⟨by omega, by omega, by omega⟩
              · rw [Prod.ext_iff]
                exact ⟨show d.1 = r + (d.1 - r) by omega, show d.2 = c + (d.2 - c) by omega⟩
              · simpa using hnf
              · simp only [Bool.and_eq_true, Bool.not_eq_true'] at hkm
                exact hkm.1.2
              · exact hsim
            · split at hkm
              · rename_i hshape
                right
                obtain ⟨hs0, hs2, hsm⟩ := hshape
                refine ⟨by simpa using hsm, isValidCastling_not_check hkm, ?_⟩
                have hd1 : d.1 = r := by omega
                have : d.2 = c + 2 ∨ d.2 = c - 2 := by omega
                rcases this with hd2 | hd2
                · left
                  rw [hd2] at hkm
                  exact ⟨hkm, by rw [Prod.ext_iff] ; exact ⟨hd1, hd2⟩⟩
                · right
                  rw [hd2] at hkm
                  exact ⟨hkm, by rw [Prod.ext_iff] ; exact ⟨hd1, hd2⟩⟩
              · cases hkm
  · rw [if_neg hking]
    simp only [List.mem_filter, mem_allCells]
    constructor
    · rintro ⟨-, h2⟩
      exact h2
    · intro hval
      exact ⟨(isValidMove_facts hval).2, hval⟩

/-- C5: for a piece on a board satisfying the reachable-position invariant
(an unmoved king stands on its home column 4), the move enumerator
`getValidMoves` returns a destination exactly when the legality engine
`isValidMove` accepts it — the king-specialized enumeration path included. -/
theorem c5_enumerator_matches_engine {b : Board} {p : ChessPiece} {r c : Int}
    (hp : getSq b r c = some p)
    (hk : p.type = PieceType.king → p.hasMoved = false → c = 4)
    (d : Int × Int) :
    d ∈ getValidMoves b p r c ↔ isValidMove b p r c d.1 d.2 = true :=
  getValidMoves_char hp hk d

theorem c5_enumerator_matches_engine_witness :
    getSq castBoard 7 4 = some wkC7 ∧
    (((7 : Int), (6 : Int)) ∈ getValidMoves castBoard wkC7 7 4 ↔
      isValidMove castBoard wkC7 7 4 7 6 = true) :=
  ⟨by decide, c5_enumerator_matches_engine (by decide) (fun _ _ => rfl) ((7 : Int), (6 : Int))⟩

/-- C6: every destination produced by the move enumerator, applied to a board
satisfying the reachable-position invariant (an unmoved king stands on its
home column 4), leaves the mover's own king out of check — for every piece
kind, castling included. -/
theorem c6_enumerated_never_self_check {b : Board} {p : ChessPiece} {r c : Int}
    (hp : getSq b r c = some p)
    (hk : p.type = PieceType.king → p.hasMoved = false → c = 4)
    (d : Int × Int) (hd : d ∈ getValidMoves b p r c) :
    isKingInCheck (simulateMove b r c d.1 d.2 p) p.color = false :=
  isValidMove_no_self_check ((getValidMoves_char hp hk d).mp hd)

theorem c6_enumerated_never_self_check_witness :
    getSq castBoard 7 4 = some wkC7 ∧
    ((7 : Int), (6 : Int)) ∈ getValidMoves castBoard wkC7 7 4 ∧
    isKingInCheck (simulateMove castBoard 7 4 7 6 wkC7) wkC7.color = false :=
  ⟨by decide, by decide,
    c6_enumerated_never_self_check (by decide) (fun _ _ => rfl) ((7 : Int), (6 : Int))
      (by decide)⟩

end Chess
